import Mathlib

/-!
# Verification of the go-getter address-detection core

This file gives a shallow embedding, over `List Char`, of the detection /
dispatch engine of the go-getter fork under verification:

* the dispatchers `Detect` (detect.go) and `CtxDetect` (detect_ctx.go),
  together with their shared result-reassembly `handleDetected`;
* the Git detector `GitDetector.Detect` (detect_git.go) and its contextual
  sibling `GitCtxDetector.CtxDetect` with the forced-filepath resolver
  `detectGitForceFilepath` and `isLocalSourceAddr`;
* models of the helpers the above call: the address grammar
  (`getForcedGetter`, `SourceDirSubdir`) and the SSH pseudo-URL recognizer
  (`detectSSH`), which live outside the provided sources and are therefore
  modelled from the specification; and the parts of Go's standard library
  the code uses (`path/filepath` lexical path functions for a Unix build,
  and `net/url` parsing/serialization restricted to the constructs these
  call sites exercise).

Strings are embedded as `List Char` (`Str`); Go's byte-level treatment is
modelled at character level, faithful for ASCII data.  All definitions are
executable, so concrete runs are settled by kernel reduction.
-/

set_option autoImplicit false

namespace GoGetter

/-- Strings are modelled as lists of characters. -/
abbrev Str := List Char

/-- Coerce a Lean string literal into the `Str` representation. -/
def str (s : String) : Str := s.data

/-- Everything before the first occurrence of character `c`
(the whole string when `c` does not occur). -/
def cutBefore (c : Char) : Str → Str
  | [] => []
  | a :: t => if a = c then [] else a :: cutBefore c t

/-- Everything after the first occurrence of character `c`, exclusive;
`none` when `c` does not occur. -/
def cutAfter (c : Char) : Str → Option Str
  | [] => none
  | a :: t => if a = c then some t else cutAfter c t

/-- First index at which `pat` occurs as a prefix of a suffix of `s`
(Go's `strings.Index`). -/
def findSub (s pat : Str) : Option Nat :=
  match s with
  | [] => if pat = [] then some 0 else none
  | _ :: t =>
    if pat.isPrefixOf s then some 0
    else (findSub t pat).map (· + 1)

/-! ## Go `path/filepath` (Unix build), lexical operations -/

/-- `filepath.IsAbs` on Unix: the path starts with a slash. -/
def isAbs (p : Str) : Bool := p.head? = some '/'

/-- `filepath.ToSlash` on Unix: the separator already is `'/'`,
so the function is the identity. -/
def toSlash (p : Str) : Str := p

/-- Split a path into its `'/'`-separated segments. -/
def splitSeg : Str → List Str
  | [] => [[]]
  | c :: t => if c = '/' then [] :: splitSeg t else (splitSeg t).modifyHead (c :: ·)

/-- One step of `filepath.Clean`'s segment normalization: drop empty and
`.` segments, let `..` pop the previous segment (except past `..` entries,
or past the root when `rooted`). -/
def cleanStep (rooted : Bool) (stack : List Str) (seg : Str) : List Str :=
  if seg = [] ∨ seg = ['.'] then stack
  else if seg = ['.', '.'] then
    match stack.getLast? with
    | some l => if l = ['.', '.'] then stack ++ [seg] else stack.dropLast
    | none => if rooted then [] else [seg]
  else stack ++ [seg]

/-- Join segments back with `'/'` separators. -/
def joinSegs : List Str → Str
  | [] => []
  | [s] => s
  | s :: rest => s ++ '/' :: joinSegs rest

/-- Reassemble cleaned segments (`filepath.Clean` output formation). -/
def renderSegs (rooted : Bool) (segs : List Str) : Str :=
  let core := joinSegs segs
  if rooted then '/' :: core
  else if core = [] then ['.'] else core

/-- `filepath.Clean` on Unix: lexical normalization collapsing empty, `.`
and `..` segments. -/
def clean (p : Str) : Str :=
  if p = [] then ['.']
  else renderSegs (isAbs p) ((splitSeg p).foldl (cleanStep (isAbs p)) [])

/-- `filepath.Join` of two elements on Unix: empty elements are skipped and
the result is `Clean`ed. -/
def joinPath (a b : Str) : Str :=
  if a = [] then (if b = [] then [] else clean b)
  else clean (a ++ '/' :: b)

/-! ## Go `net/url`, restricted model

The code calls `url.Parse` (via the repo's `helper/url`, which on Unix is
exactly `net/url.Parse`) and `URL.String`.  The model below follows the
stdlib source for the constructs these call sites can reach: control-byte
rejection, fragment/query splitting, scheme recognition, opaque rootless
bodies, the relative-path colon restriction, authority parsing with
userinfo/host/port validation, percent escaping and unescaping, and
`RawPath`-based path round-tripping.  It works character-by-character, so
it is byte-faithful on ASCII data.  Out of scope (unreachable or irrelevant
here): IPv6 zone identifiers, `+`-as-space query decoding, and multi-byte
UTF-8 splitting of non-ASCII characters. -/

/-- Escaping contexts of `net/url` (its `encoding` enumeration), for the
modes the modelled call sites use. -/
inductive Mode where
  | path
  | host
  | userPassword
  | fragment
deriving DecidableEq

def isAlpha (c : Char) : Bool := ('a' ≤ c ∧ c ≤ 'z') ∨ ('A' ≤ c ∧ c ≤ 'Z')
def isDigit (c : Char) : Bool := '0' ≤ c ∧ c ≤ '9'
def isAlnum (c : Char) : Bool := isAlpha c ∨ isDigit c

/-- `net/url.shouldEscape`: whether `c` must be percent-escaped when it
appears in component `mode`. -/
def shouldEscape (c : Char) (mode : Mode) : Bool :=
  if isAlnum c then false
  else if mode = .host ∧
      c ∈ (['!', '$', '&', '\'', '(', ')', '*', '+', ',', ';', '=', ':',
            '[', ']', '<', '>', '"'] : List Char) then false
  else if c ∈ (['-', '_', '.', '~'] : List Char) then false
  else if c ∈ (['$', '&', '+', ',', '/', ':', ';', '=', '?', '@'] : List Char) then
    match mode with
    | .path => c = '?'
    | .userPassword => c = '@' ∨ c = '/' ∨ c = '?' ∨ c = ':'
    | .fragment => false
    | .host => true
  else true

def hexChar (n : Nat) : Char :=
  if n < 10 then Char.ofNat ('0'.toNat + n) else Char.ofNat ('A'.toNat + n - 10)

def unhex (c : Char) : Option Nat :=
  if isDigit c then some (c.toNat - '0'.toNat)
  else if 'a' ≤ c ∧ c ≤ 'f' then some (c.toNat - 'a'.toNat + 10)
  else if 'A' ≤ c ∧ c ≤ 'F' then some (c.toNat - 'A'.toNat + 10)
  else none

/-- `net/url.escape`: percent-escape every character the mode requires. -/
def escape (s : Str) (mode : Mode) : Str :=
  match s with
  | [] => []
  | c :: t =>
    (if shouldEscape c mode
     then ['%', hexChar (c.toNat % 256 / 16), hexChar (c.toNat % 16)]
     else [c]) ++ escape t mode

/-- `net/url.unescape`: decode percent escapes, rejecting malformed ones;
in host mode additionally reject escapes of ASCII `< 0x80` other than
`%25`, and bare host-forbidden characters. -/
def unescape (s : Str) (mode : Mode) : Except Str Str :=
  match s with
  | [] => .ok []
  | '%' :: rest =>
    match rest with
    | h1 :: h2 :: t =>
      match unhex h1, unhex h2 with
      | some a, some b =>
        if mode = .host ∧ a < 8 ∧ ¬(h1 = '2' ∧ h2 = '5') then
          .error (str "invalid URL escape")
        else (unescape t mode).map (Char.ofNat (16 * a + b) :: ·)
      | _, _ => .error (str "invalid URL escape")
    | _ => .error (str "invalid URL escape")
  | c :: t =>
    if mode = .host ∧ c.toNat < 0x80 ∧ shouldEscape c .host then
      .error (str "invalid character in host name")
    else (unescape t mode).map (c :: ·)

/-- `net/url.validEncoded`: may `s` appear literally in an escaped-path
position (percent signs checked later by `unescape`)? -/
def validEncoded (s : Str) (mode : Mode) : Bool :=
  s.all fun c =>
    c ∈ (['!', '$', '&', '\'', '(', ')', '*', '+', ',', ';', '=', ':', '@',
          '[', ']', '%'] : List Char) ∨ ¬shouldEscape c mode

/-- `net/url.validOptionalPort`: empty, or `':'` followed by digits only. -/
def validOptionalPort (p : Str) : Bool :=
  match p with
  | [] => true
  | ':' :: digits => digits.all isDigit
  | _ => false

/-- `net/url.validUserinfo`: RFC 3986 userinfo characters. -/
def validUserinfo (s : Str) : Bool :=
  s.all fun c =>
    isAlnum c ∨
    c ∈ (['-', '.', '_', ':', '~', '!', '$', '&', '\'', '(', ')', '*', '+',
          ',', ';', '=', '%', '@'] : List Char)

/-- The fields of `net/url.URL` the modelled call sites use. -/
structure URL where
  scheme : Str := []
  opq : Str := []
  user : Option Str := none
  password : Option Str := none
  host : Str := []
  path : Str := []
  rawPath : Str := []
  forceQuery : Bool := false
  rawQuery : Str := []
  fragment : Option Str := none
deriving DecidableEq, Repr

/-- A scheme character after the leading alphabetic one. -/
def isSchemeChar (c : Char) : Bool := isAlnum c ∨ c ∈ (['+', '-', '.'] : List Char)

def lowerChar (c : Char) : Char :=
  if 'A' ≤ c ∧ c ≤ 'Z' then Char.ofNat (c.toNat + 32) else c

/-- `net/url.getscheme`: split off a leading `scheme:`; a leading `':'` is
an error, any other non-scheme character before a `':'` means no scheme. -/
def getScheme (s : Str) : Except Str (Str × Str) :=
  let rec go (acc : Str) : Str → Option (Str × Str)
    | [] => none
    | ':' :: t => if acc = [] then none else some (acc.reverse, t)
    | c :: t =>
      if (acc = [] ∧ isAlpha c) ∨ (acc ≠ [] ∧ (isAlpha c ∨ isSchemeChar c)) then
        go (c :: acc) t
      else none
  match s with
  | ':' :: _ => .error (str "missing protocol scheme")
  | _ =>
    match go [] s with
    | some (sch, rest) => .ok (sch.map lowerChar, rest)
    | none => .ok ([], s)

/-- `net/url.parseHost` (bracketed form without zone handling). -/
def parseHost (h : Str) : Except Str Str :=
  if h.head? = some '[' then
    match (h.reverse.takeWhile (· ≠ ']')).reverse, h.reverse.dropWhile (· ≠ ']') with
    | _, [] => .error (str "missing ']' in host")
    | afterBracket, _ =>
      if ¬validOptionalPort afterBracket then
        .error (str "invalid port after host")
      else unescape h .host
  else
    match (cutAfter ':' h.reverse).map List.reverse with
    | some _ =>
      let colonPort := ':' :: (h.reverse.takeWhile (· ≠ ':')).reverse
      if ¬validOptionalPort colonPort then
        .error (str "invalid port after host")
      else unescape h .host
    | none => unescape h .host

/-- `net/url.parseAuthority`: split userinfo from host at the last `'@'`,
validate and decode both. -/
def parseAuthority (a : Str) : Except Str (Option Str × Option Str × Str) :=
  match (cutAfter '@' a.reverse).map List.reverse with
  | none => (parseHost a).map fun h => (none, none, h)
  | some userinfo =>
    let hostPart := (a.reverse.takeWhile (· ≠ '@')).reverse
    match parseHost hostPart with
    | .error e => .error e
    | .ok h =>
      if ¬validUserinfo userinfo then .error (str "net/url: invalid userinfo")
      else
        match cutAfter ':' userinfo with
        | none =>
          (unescape userinfo .userPassword).map fun u => (some u, none, h)
        | some pass =>
          match unescape (cutBefore ':' userinfo) .userPassword,
                unescape pass .userPassword with
          | .ok u, .ok p => .ok (some u, some p, h)
          | .error e, _ => .error e
          | _, .error e => .error e

/-- `url.setPath`: store the decoded path, remembering the raw spelling
when it differs from the canonical escaping. -/
def setPath (u : URL) (p : Str) : Except Str URL :=
  match unescape p .path with
  | .error e => .error e
  | .ok decoded =>
    .ok { u with path := decoded, rawPath := if p = escape decoded .path then [] else p }

/-- A Go control byte (`stringContainsCTLByte`). -/
def isCtl (c : Char) : Bool := c.toNat < 0x20 ∨ c.toNat = 0x7f

/-- The query split of `net/url.parse`: a single trailing `'?'` sets
`ForceQuery`, otherwise the part after the first `'?'` becomes
`RawQuery`.  Returns `(rest, forceQuery, rawQuery)`. -/
def querySplit (afterScheme : Str) : Str × Bool × Str :=
  if afterScheme.getLast? = some '?' ∧ '?' ∉ afterScheme.dropLast then
    (afterScheme.dropLast, true, [])
  else
    match cutAfter '?' afterScheme with
    | some q => (cutBefore '?' afterScheme, false, q)
    | none => (afterScheme, false, [])

/-- `net/url.parse` (with `viaRequest = false`), after the fragment has
been split off. -/
def parseNoFrag (s : Str) : Except Str URL :=
  if s.any isCtl then .error (str "net/url: invalid control character in URL") else
  match getScheme s with
  | .error e => .error e
  | .ok (sch, afterScheme) =>
    let rfr := querySplit afterScheme
    let rest := rfr.1
    let forceQuery := rfr.2.1
    let rawQuery := rfr.2.2
    let base : URL := { scheme := sch, forceQuery := forceQuery, rawQuery := rawQuery }
    if rest.head? ≠ some '/' then
      if sch ≠ [] then .ok { base with opq := rest }
      else
        match findSub rest [':'], findSub rest ['/'] with
        | some ci, some si =>
          if ci < si then .error (str "first path segment in URL cannot contain colon")
          else setPath base rest
        | some _, none => .error (str "first path segment in URL cannot contain colon")
        | none, _ => setPath base rest
    else
      if (sch ≠ [] ∨ ¬(['/', '/', '/'].isPrefixOf rest)) ∧ ['/', '/'].isPrefixOf rest then
        let afterSlashes := rest.drop 2
        let authority := cutBefore '/' afterSlashes
        let rest' :=
          match cutAfter '/' afterSlashes with
          | some t => '/' :: t
          | none => []
        match parseAuthority authority with
        | .error e => .error e
        | .ok (user, pass, h) =>
          setPath { base with user := user, password := pass, host := h } rest'
      else setPath base rest

/-- `net/url.Parse`: split the fragment off first, then parse; the
fragment is decoded with fragment-mode unescaping. -/
def urlParse (s : Str) : Except Str URL :=
  match cutAfter '#' s with
  | none => parseNoFrag s
  | some frag =>
    match parseNoFrag (cutBefore '#' s) with
    | .error e => .error e
    | .ok u =>
      match unescape frag .fragment with
      | .error e => .error e
      | .ok f => .ok { u with fragment := some f }

instance {ε α : Type} [DecidableEq ε] [DecidableEq α] : DecidableEq (Except ε α) := fun x y =>
  match x, y with
  | .ok a, .ok b => if h : a = b then .isTrue (by rw [h]) else .isFalse (by simp [h])
  | .error a, .error b => if h : a = b then .isTrue (by rw [h]) else .isFalse (by simp [h])
  | .ok _, .error _ => .isFalse (by simp)
  | .error _, .ok _ => .isFalse (by simp)

/-- `URL.EscapedPath`: prefer a `RawPath` that validly encodes `Path`. -/
def escapedPath (u : URL) : Str :=
  if u.rawPath ≠ [] ∧ validEncoded u.rawPath .path ∧
      unescape u.rawPath .path = .ok u.path then
    u.rawPath
  else if u.path = ['*'] then ['*']
  else escape u.path .path

/-- `URL.String`: reassemble the URL in Go's serialization order. -/
def uString (u : URL) : Str :=
  (if u.scheme ≠ [] then u.scheme ++ [':'] else []) ++
  (if u.opq ≠ [] then u.opq
   else
     (if u.scheme ≠ [] ∨ u.host ≠ [] ∨ u.user ≠ none then
       (if u.host ≠ [] ∨ u.path ≠ [] ∨ u.user ≠ none then ['/', '/'] else []) ++
       (match u.user with
        | some usr =>
          escape usr .userPassword ++
          (match u.password with
           | some pw => ':' :: escape pw .userPassword
           | none => []) ++ ['@']
        | none => []) ++
       escape u.host .host
     else []) ++
     (let ep := escapedPath u
      (if ep ≠ [] ∧ ep.head? ≠ some '/' ∧ u.host ≠ [] then ['/'] else []) ++ ep)) ++
  (if u.forceQuery ∨ u.rawQuery ≠ [] then '?' :: u.rawQuery else []) ++
  (match u.fragment with
   | some f => '#' :: escape f .fragment
   | none => [])

/-! ## Address grammar and SSH pseudo-URL recognizer (spec-modelled)

`getForcedGetter`, `SourceDirSubdir` and `detectSSH` are code of this
repository that is not among the provided sources (only their callers
are); they are modelled from the specification's §4.1 and §4.2. -/

/-- Split at the first occurrence of substring `pat`: both sides,
exclusive of the separator. -/
def cutSub (pat : Str) : Str → Option (Str × Str)
  | [] => if pat = [] then some ([], []) else none
  | c :: t =>
    if pat.isPrefixOf (c :: t) then some ([], (c :: t).drop pat.length)
    else (cutSub pat t).map fun p => (c :: p.1, p.2)

/-- The dispatcher's URI probe: `err == nil && u.Scheme != ""`. -/
def isValidURL (s : Str) : Bool :=
  match urlParse s with
  | .ok u => u.scheme ≠ []
  | .error _ => false

/-- Modelled from the spec: `splitForcedToken` (the repo's
`getForcedGetter`, absent from the provided sources) — "token is the
substring before the first `::` if-and-only-if everything before it is a
syntactically plausible backend name (no `/`); otherwise no token is
present and the whole string is `rest`". -/
def getForcedGetter (src : Str) : Str × Str :=
  match cutSub (str "::") src with
  | some (tok, rest) => if tok ≠ [] ∧ '/' ∉ tok then (tok, rest) else ([], src)
  | none => ([], src)

/-- Modelled from the spec: `splitSubdir` (the repo's `SourceDirSubdir`,
absent from the provided sources) — "the first occurrence of `//` that is
not part of a URI scheme's `://` demarcates `base` from `subdir`; absent
such an occurrence, `subdir` is empty.  Query strings, if present, are
detached from `base` before this scan and reattached to whichever side
they belonged to" (the query belongs to the base address). -/
def SourceDirSubdir (s : Str) : Str × Str :=
  let core := cutBefore '?' s
  let q : Str := match cutAfter '?' s with | some t => '?' :: t | none => []
  let off := match findSub core (str "://") with | some i => i + 3 | none => 0
  match findSub (core.drop off) (str "//") with
  | none => (s, [])
  | some j => (core.take (off + j) ++ q, core.drop (off + j + 2))

/-- The authority and path recognized by the SSH pseudo-URL parser. -/
structure SSHParts where
  user : Str
  host : Str
  path : Str
  query : Str
deriving DecidableEq, Repr

/-- Modelled from the spec: the `SSHPseudoURLParser` grammar (the repo's
`detectSSH` pattern match, absent from the provided sources) — recognizes
`user@host:path`, `host` free of `:`, `/` (and, being the part between
the `@` and the separating colon, of `@`), declining strings that already
parse as scheme-qualified URIs or lack the `user@host:` shape; a trailing
`?query` is split off the path. -/
def sshParse (s : Str) : Option SSHParts :=
  if isValidURL s then none
  else
    match cutAfter '@' s with
    | none => none
    | some afterAt =>
      let user := cutBefore '@' s
      match cutAfter ':' afterAt with
      | none => none
      | some path =>
        let host := cutBefore ':' afterAt
        if user = [] ∨ host = [] ∨ '/' ∈ host ∨ '@' ∈ host ∨ path = [] then none
        else
          some { user := user, host := host,
                 path := cutBefore '?' path,
                 query := (cutAfter '?' path).getD [] }

/-- The `ssh://` URL the parser builds (`detectSSH` sets `Scheme`, `User`,
`Host`, `Path` and `RawQuery` directly). -/
def sshToURL (p : SSHParts) : URL :=
  { scheme := str "ssh", user := some p.user, host := p.host,
    path := p.path, rawQuery := p.query }

/-- Modelled from the spec: `detectSSH` — the recognized pseudo-URL as a
URL value, or `none`. -/
def detectSSH (s : Str) : Option URL := (sshParse s).map sshToURL

/-! ## The Git detectors and the forced-filepath resolver (from src) -/

/-- `GitDetector.Detect` (detect_git.go): commit on SSH pseudo-URLs whose
username is exactly `git`. -/
def GitDetector.Detect (src _pwd : Str) : Except Str (Str × Bool) :=
  if src = [] then .ok ([], false)
  else
    match detectSSH src with
    | none => .ok ([], false)
    | some u =>
      if u.user ≠ some (str "git") then .ok ([], false)
      else .ok (str "git::" ++ uString u, true)

/-- `localSourcePrefixes` (detect_git.go). -/
def localSourcePrefixes : List Str := [str "./", str "../", str ".\\", str "..\\"]

/-- `localExactMatches` (detect_git.go). -/
def localExactMatches : List Str := [str ".", str ".."]

/-- `isLocalSourceAddr` (detect_git.go). -/
def isLocalSourceAddr (addr : Str) : Bool :=
  localExactMatches.any (· = addr) ∨ localSourcePrefixes.any (·.isPrefixOf addr)

/-- The tail of `detectGitForceFilepath` after the resolution base has
been chosen: clean, slash-convert, root-delimit, embed in a `file://`
URI, and prefix the force token. -/
def buildGitFileURI (force srcResolved : Str) : Except Str (Str × Bool) :=
  let srcResolvedClean := toSlash (clean srcResolved)
  let delimited :=
    if srcResolvedClean.head? = some '/' then srcResolvedClean
    else '/' :: srcResolvedClean
  match urlParse (str "file://" ++ delimited) with
  | .error e =>
    .error (str "error parsing 'git::' force filepath (" ++ delimited ++
            str ") to URL: " ++ e)
  | .ok u => .ok (force ++ str "::" ++ uString u, true)

/-- `detectGitForceFilepath` (detect_git.go, the live contextual 4-argument
variant): resolve a filepath explicitly forced for Git into a
`git::file://` URI. -/
def detectGitForceFilepath (src pwd force srcResolveFrom : Str) :
    Except Str (Str × Bool) :=
  if force ≠ str "git" then .ok ([], false)
  else if src = [] then .ok ([], false)
  else if isAbs src then buildGitFileURI force src
  else if ¬isLocalSourceAddr src then .ok ([], false)
  else if srcResolveFrom ≠ [] then
    if ¬isAbs srcResolveFrom then
      .error (str "unable to resolve 'git::' forced filepath (" ++ src ++
              str "); provided srcResolveFrom filepath (" ++ srcResolveFrom ++
              str ") is not rooted")
    else buildGitFileURI force (joinPath srcResolveFrom src)
  else if pwd ≠ [] then
    if ¬isAbs pwd then
      .error (str "unable to resolve 'git::' forced filepath (" ++ pwd ++
              str "); provided pwd filepath (" ++ srcResolveFrom ++
              str ") is not rooted")
    else buildGitFileURI force (joinPath pwd src)
  else
    .error (str "unable to resolve 'git::' force filepath (" ++ src ++
            str "); neither pwd nor srcResolveFrom param was provided")

/-- The SSH tail of `GitCtxDetector.CtxDetect`, reached when the
forced-filepath resolver did not commit (`mustField` there is spelled
`forceToken = "git"`). -/
def gitCtxSSH (src forceToken : Str) : Except Str (Str × Bool) :=
  match detectSSH src with
  | none =>
    if forceToken = str "git" then
      .error (str "forced 'git::' handling: ssh detection yielded nil URL for src: " ++ src)
    else .ok ([], false)
  | some u =>
    if u.user ≠ some (str "git") then
      if forceToken = str "git" then
        .error (str "forced 'git::' handling: ssh username is not 'git'; got: " ++
                u.user.getD [] ++ str "; src is: " ++ src)
      else .ok ([], false)
    else .ok (str "git::" ++ uString u, true)

/-- `GitCtxDetector.CtxDetect` (detect_git.go): under a non-empty force
token first try the forced-filepath resolver; under the exact `git` token
every decline is escalated to an error. -/
def GitCtxDetector.CtxDetect (src pwd forceToken _ctxSubDir srcResolveFrom : Str) :
    Except Str (Str × Bool) :=
  if src = [] then
    if forceToken = str "git" then
      .error (str "forced 'git::' handling: src string must be non-empty")
    else .ok ([], false)
  else if forceToken ≠ [] then
    match detectGitForceFilepath src pwd forceToken srcResolveFrom with
    | .error e => .error e
    | .ok (rslt, true) => .ok (rslt, true)
    | .ok (_, false) => gitCtxSSH src forceToken
  else gitCtxSSH src forceToken

/-! ## The dispatchers (from src) -/

/-- The `Detector` capability: `Detect(src, pwd) -> (string, bool, error)`. -/
abbrev Detector := Str → Str → Except Str (Str × Bool)

/-- The `CtxDetector` capability:
`CtxDetect(src, pwd, forceToken, ctxSubDir, srcResolveFrom)`. -/
abbrev CtxDetector := Str → Str → Str → Str → Str → Except Str (Str × Bool)

/-- The subdir merge of `handleDetected` (spec §4.1 `mergeSubdir`): a
subdir reported by the detector is prepended, path-join style, to the
caller-requested one. -/
def mergeSubdir (detectSubdir subDir : Str) : Str :=
  if detectSubdir ≠ [] then
    if subDir ≠ [] then joinPath detectSubdir subDir else detectSubdir
  else subDir

/-- `handleDetected` (detect.go): strip any force token from the detector
result, merge the detector's subdir ahead of the caller's, re-embed the
merged subdir into the URL path (kept raw so wildcards stay literal), and
reattach the dominant force token. -/
def handleDetected (detectedResult srcGetForce subDir : Str) : Except Str Str :=
  let fr := getForcedGetter detectedResult
  let detectForce := fr.1
  let sd := SourceDirSubdir fr.2
  let result1 := sd.1
  let sub := mergeSubdir sd.2 subDir
  let withSub : Except Str Str :=
    if sub ≠ [] then
      match urlParse result1 with
      | .error e => .error (str "Error parsing URL: " ++ e)
      | .ok u =>
        let newPath := u.path ++ str "//" ++ sub
        .ok (uString { u with path := newPath, rawPath := newPath })
    else .ok result1
  match withSub with
  | .error e => .error e
  | .ok result2 =>
    .ok (if srcGetForce ≠ [] then srcGetForce ++ str "::" ++ result2
         else if detectForce ≠ [] then detectForce ++ str "::" ++ result2
         else result2)

/-- The detector-trial loop of `Detect` (detect.go). -/
def detectLoop (getSrc pwd getForce subDir src : Str) :
    List Detector → Except Str Str
  | [] => .error (str "invalid source string: " ++ src)
  | d :: ds =>
    match d getSrc pwd with
    | .error e => .error e
    | .ok (result, ok) =>
      if ok then handleDetected result getForce subDir
      else detectLoop getSrc pwd getForce subDir src ds

/-- `Detect` (detect.go, the variant without the disabled legacy
forced-filepath special case): parse the grammar, short-circuit on
already-valid URLs, then run the chain. -/
def Detect (src pwd : Str) (ds : List Detector) : Except Str Str :=
  let f := getForcedGetter src
  let gs := SourceDirSubdir f.2
  if isValidURL gs.1 then .ok src
  else detectLoop gs.1 pwd f.1 gs.2 src ds

/-- The detector-trial loop of `CtxDetect` (detect_ctx.go). -/
def ctxDetectLoop (getSrc pwd getForce subDir srcResolveFrom src : Str) :
    List CtxDetector → Except Str Str
  | [] => .error (str "invalid source string: " ++ src)
  | d :: ds =>
    match d getSrc pwd getForce subDir srcResolveFrom with
    | .error e => .error e
    | .ok (result, ok) =>
      if ok then handleDetected result getForce subDir
      else ctxDetectLoop getSrc pwd getForce subDir srcResolveFrom src ds

/-- `CtxDetect` (detect_ctx.go): like `Detect`, threading the alternate
resolution base `srcResolveFrom` to every detector. -/
def CtxDetect (src pwd srcResolveFrom : Str) (cds : List CtxDetector) :
    Except Str Str :=
  let f := getForcedGetter src
  let gs := SourceDirSubdir f.2
  if isValidURL gs.1 then .ok src
  else ctxDetectLoop gs.1 pwd f.1 gs.2 srcResolveFrom src cds

/-! ## Theorems -/

/-- The probe reports a valid URL when parsing succeeds with a scheme. -/
theorem isValidURL_of_parse {s : Str} {u : URL} (h : urlParse s = .ok u)
    (hs : u.scheme ≠ []) : isValidURL s = true := by
  unfold isValidURL
  rw [h]
  simpa using hs

/-- **C1.** If the body of the address — after the dispatcher strips any
forced-backend token and any `//subdir` suffix — parses as a URI with a
non-empty scheme, then both `Detect` and `CtxDetect` return the original
input unchanged and error-free, for every detector chain (so no detector
is consulted). -/
theorem detect_validURL_passthrough (src pwd srcResolveFrom : Str)
    (ds : List Detector) (cds : List CtxDetector) (u : URL)
    (h : urlParse (SourceDirSubdir (getForcedGetter src).2).1 = .ok u)
    (hs : u.scheme ≠ []) :
    Detect src pwd ds = .ok src ∧
    CtxDetect src pwd srcResolveFrom cds = .ok src := by
  constructor
  · unfold Detect
    simp only [isValidURL_of_parse h hs, if_true]
  · unfold CtxDetect
    simp only [isValidURL_of_parse h hs, if_true]

/-- Witness for C1 at `http://example.com/foo`. -/
theorem detect_validURL_passthrough_witness :
    Detect (str "http://example.com/foo") (str "/pwd") [GitDetector.Detect] =
      .ok (str "http://example.com/foo") ∧
    CtxDetect (str "http://example.com/foo") (str "/pwd") (str "")
      [GitCtxDetector.CtxDetect] = .ok (str "http://example.com/foo") :=
  detect_validURL_passthrough (str "http://example.com/foo") (str "/pwd")
    (str "") [GitDetector.Detect] [GitCtxDetector.CtxDetect]
    { scheme := str "http", host := str "example.com", path := str "/foo" }
    (by decide) (by decide)

/-- The SSH pseudo-URL grammar never recognizes the empty address. -/
theorem sshParse_nil : sshParse [] = none := by decide

/-- **C2.** `GitDetector.Detect`: the empty address is declined without
error; an SSH-recognized address with username exactly `git` commits with
`"git::"` prepended to the `ssh://` rewrite; an SSH-recognized address
with any other username is declined without error.  In particular
`detect("git@github.com:hashicorp/foo.git", pwd, [Git])` yields
`git::ssh://git@github.com/hashicorp/foo.git`. -/
theorem git_detector_spec :
    (∀ pwd, GitDetector.Detect [] pwd = .ok ([], false)) ∧
    (∀ src pwd p, sshParse src = some p → p.user = str "git" →
      GitDetector.Detect src pwd = .ok (str "git::" ++ uString (sshToURL p), true)) ∧
    (∀ src pwd p, sshParse src = some p → p.user ≠ str "git" →
      GitDetector.Detect src pwd = .ok ([], false)) ∧
    Detect (str "git@github.com:hashicorp/foo.git") (str "/pwd")
      [GitDetector.Detect] =
      .ok (str "git::ssh://git@github.com/hashicorp/foo.git") := by
  refine ⟨fun pwd => rfl, ?_, ?_, by decide⟩
  · intro src pwd p hp huser
    have hsrc : src ≠ [] := by
      intro hnil
      rw [hnil, sshParse_nil] at hp
      exact Option.noConfusion hp
    unfold GitDetector.Detect detectSSH
    rw [if_neg hsrc, hp]
    simp [huser, sshToURL]
  · intro src pwd p hp huser
    have hsrc : src ≠ [] := by
      intro hnil
      rw [hnil, sshParse_nil] at hp
      exact Option.noConfusion hp
    unfold GitDetector.Detect detectSSH
    rw [if_neg hsrc, hp]
    simp [sshToURL, huser]

/-- Witness for C2: the SSH-commit and SSH-decline branches at concrete
recognized addresses. -/
theorem git_detector_spec_witness :
    GitDetector.Detect (str "git@github.com:hashicorp/foo.git") (str "/pwd") =
      .ok (str "git::" ++ uString (sshToURL
        { user := str "git", host := str "github.com",
          path := str "hashicorp/foo.git", query := [] }), true) ∧
    GitDetector.Detect (str "alice@github.com:hashicorp/foo.git") (str "/pwd") =
      .ok ([], false) :=
  ⟨git_detector_spec.2.1 (str "git@github.com:hashicorp/foo.git") (str "/pwd")
      { user := str "git", host := str "github.com",
        path := str "hashicorp/foo.git", query := [] } (by decide) (by decide),
   git_detector_spec.2.2.1 (str "alice@github.com:hashicorp/foo.git") (str "/pwd")
      { user := str "alice", host := str "github.com",
        path := str "hashicorp/foo.git", query := [] } (by decide) (by decide)⟩

/-- **C4.** The forced-filepath resolver declines (not matched, no error)
whenever the forced token is not exactly `git`, or the address is empty,
or the address is neither absolute nor filepath-shaped (not starting with
`./`, `../`, `.\`, `..\` and not exactly `.` or `..`); e.g. `foo/bar` is
declined. -/
theorem detectGitForceFilepath_declines :
    (∀ src pwd force srf, force ≠ str "git" →
      detectGitForceFilepath src pwd force srf = .ok ([], false)) ∧
    (∀ pwd force srf,
      detectGitForceFilepath [] pwd force srf = .ok ([], false)) ∧
    (∀ src pwd srf, ¬isAbs src → ¬isLocalSourceAddr src →
      detectGitForceFilepath src pwd (str "git") srf = .ok ([], false)) ∧
    (∀ pwd srf,
      detectGitForceFilepath (str "foo/bar") pwd (str "git") srf = .ok ([], false)) := by
  refine ⟨?_, ?_, ?_, ?_⟩
  · intro src pwd force srf hf
    unfold detectGitForceFilepath
    rw [if_pos hf]
  · intro pwd force srf
    unfold detectGitForceFilepath
    by_cases hf : force = str "git"
    · rw [if_neg (by simpa using hf), if_pos rfl]
    · rw [if_pos hf]
  · intro src pwd srf habs hlocal
    unfold detectGitForceFilepath
    by_cases hsrc : src = []
    · rw [if_neg (by simp), if_pos hsrc]
    · rw [if_neg (by simp), if_neg hsrc, if_neg (by simpa using habs),
        if_pos (by simpa using hlocal)]
  · intro pwd srf
    exact (by decide : ¬isAbs (str "foo/bar") = true) |> fun h =>
      (by decide : ¬isLocalSourceAddr (str "foo/bar") = true) |> fun h' => by
        unfold detectGitForceFilepath
        rw [if_neg (by simp), if_neg (by decide), if_neg (by simpa using h),
          if_pos (by simpa using h')]

/-- Witness for C4 at a wrong token, the empty address, and `foo/bar`. -/
theorem detectGitForceFilepath_declines_witness :
    detectGitForceFilepath (str "/somedir") (str "/pwd") (str "hg") (str "") =
      .ok ([], false) ∧
    detectGitForceFilepath [] (str "/pwd") (str "git") (str "") =
      .ok ([], false) ∧
    detectGitForceFilepath (str "foo/bar") (str "/pwd") (str "git") (str "") =
      .ok ([], false) :=
  ⟨detectGitForceFilepath_declines.1 (str "/somedir") (str "/pwd") (str "hg")
      (str "") (by decide),
   detectGitForceFilepath_declines.2.1 (str "/pwd") (str "git") (str ""),
   detectGitForceFilepath_declines.2.2.2 (str "/pwd") (str "")⟩

/-- Detector outcomes that are not the silent decline `(_, false)`. -/
def noSilentDecline (r : Except Str (Str × Bool)) : Bool :=
  match r with
  | .ok (_, false) => false
  | _ => true

/-- **C10.** Under the exact force token `git`, the contextual Git
detector never declines silently: every call either commits with a URI or
fails with an error. -/
theorem gitCtxDetect_forced_never_silent (src pwd ctxSubDir srcResolveFrom : Str) :
    noSilentDecline
      (GitCtxDetector.CtxDetect src pwd (str "git") ctxSubDir srcResolveFrom) = true := by
  have hssh : noSilentDecline (gitCtxSSH src (str "git")) = true := by
    unfold gitCtxSSH
    cases hs : detectSSH src with
    | none => simp [noSilentDecline]
    | some u =>
      by_cases huser : u.user = some (str "git")
      · simp [huser, noSilentDecline]
      · simp [huser, noSilentDecline]
  unfold GitCtxDetector.CtxDetect
  by_cases hsrc : src = []
  · simp [hsrc, noSilentDecline]
  · rw [if_neg hsrc, if_pos (by decide : (str "git" : Str) ≠ [])]
    cases hdf : detectGitForceFilepath src pwd (str "git") srcResolveFrom with
    | error e => simp [noSilentDecline]
    | ok p =>
      rcases p with ⟨rslt, ok⟩
      cases ok with
      | true => simp [noSilentDecline]
      | false => exact hssh

/-- **C3.** Resolution-base selection of the forced-Git filepath resolver
on relative filepath-shaped addresses: a non-empty `srcResolveFrom` is the
base (and must be absolute, else an error); otherwise a non-empty `pwd` is
the base (same requirement); with neither available the call fails rather
than falling back to an implicit directory.  Absolute addresses are handed
to the URI builder as-is — independent of `pwd`/`srcResolveFrom`, so they
never trigger the resolution errors. -/
theorem detectGitForceFilepath_base_selection :
    (∀ src pwd srf, isAbs src →
      detectGitForceFilepath src pwd (str "git") srf =
        buildGitFileURI (str "git") src) ∧
    (∀ src pwd srf, ¬isAbs src → isLocalSourceAddr src → srf ≠ [] → isAbs srf →
      detectGitForceFilepath src pwd (str "git") srf =
        buildGitFileURI (str "git") (joinPath srf src)) ∧
    (∀ src pwd srf, ¬isAbs src → isLocalSourceAddr src → srf ≠ [] → ¬isAbs srf →
      detectGitForceFilepath src pwd (str "git") srf =
        .error (str "unable to resolve 'git::' forced filepath (" ++ src ++
                str "); provided srcResolveFrom filepath (" ++ srf ++
                str ") is not rooted")) ∧
    (∀ src pwd, ¬isAbs src → isLocalSourceAddr src → pwd ≠ [] → isAbs pwd →
      detectGitForceFilepath src pwd (str "git") [] =
        buildGitFileURI (str "git") (joinPath pwd src)) ∧
    (∀ src pwd, ¬isAbs src → isLocalSourceAddr src → pwd ≠ [] → ¬isAbs pwd →
      detectGitForceFilepath src pwd (str "git") [] =
        .error (str "unable to resolve 'git::' forced filepath (" ++ pwd ++
                str "); provided pwd filepath (" ++ ([] : Str) ++
                str ") is not rooted")) ∧
    (∀ src, ¬isAbs src → isLocalSourceAddr src →
      detectGitForceFilepath src [] (str "git") [] =
        .error (str "unable to resolve 'git::' force filepath (" ++ src ++
                str "); neither pwd nor srcResolveFrom param was provided")) := by
  have hlocal_ne : ∀ src : Str, isLocalSourceAddr src → src ≠ [] := by
    intro src h hnil
    rw [hnil] at h
    exact absurd h (by decide)
  have habs_ne : ∀ src : Str, isAbs src → src ≠ [] := by
    intro src h hnil
    rw [hnil] at h
    exact absurd h (by decide)
  refine ⟨?_, ?_, ?_, ?_, ?_, ?_⟩
  · intro src pwd srf habs
    unfold detectGitForceFilepath
    rw [if_neg (by simp), if_neg (habs_ne src habs), if_pos habs]
  · intro src pwd srf habs hloc hsrf hsrfabs
    unfold detectGitForceFilepath
    rw [if_neg (by simp), if_neg (hlocal_ne src hloc), if_neg (by simpa using habs),
      if_neg (by simpa using hloc), if_pos hsrf, if_neg (by simpa using hsrfabs)]
  · intro src pwd srf habs hloc hsrf hsrfabs
    unfold detectGitForceFilepath
    rw [if_neg (by simp), if_neg (hlocal_ne src hloc), if_neg (by simpa using habs),
      if_neg (by simpa using hloc), if_pos hsrf, if_pos (by simpa using hsrfabs)]
  · intro src pwd habs hloc hpwd hpwdabs
    unfold detectGitForceFilepath
    rw [if_neg (by simp), if_neg (hlocal_ne src hloc), if_neg (by simpa using habs),
      if_neg (by simpa using hloc), if_neg (by simp), if_pos hpwd,
      if_neg (by simpa using hpwdabs)]
  · intro src pwd habs hloc hpwd hpwdabs
    unfold detectGitForceFilepath
    rw [if_neg (by simp), if_neg (hlocal_ne src hloc), if_neg (by simpa using habs),
      if_neg (by simpa using hloc), if_neg (by simp), if_pos hpwd,
      if_pos (by simpa using hpwdabs)]
  · intro src habs hloc
    unfold detectGitForceFilepath
    rw [if_neg (by simp), if_neg (hlocal_ne src hloc), if_neg (by simpa using habs),
      if_neg (by simpa using hloc), if_neg (by simp), if_neg (by simp)]

/-- Witness for C3: all six base-selection branches at concrete inputs. -/
theorem detectGitForceFilepath_base_selection_witness :
    detectGitForceFilepath (str "/a") (str "p") (str "git") (str "s") =
      buildGitFileURI (str "git") (str "/a") ∧
    detectGitForceFilepath (str "./a") (str "") (str "git") (str "/base") =
      buildGitFileURI (str "git") (joinPath (str "/base") (str "./a")) ∧
    detectGitForceFilepath (str "./a") (str "") (str "git") (str "base") =
      .error (str "unable to resolve 'git::' forced filepath (" ++ str "./a" ++
              str "); provided srcResolveFrom filepath (" ++ str "base" ++
              str ") is not rooted") ∧
    detectGitForceFilepath (str "./a") (str "/pwd") (str "git") [] =
      buildGitFileURI (str "git") (joinPath (str "/pwd") (str "./a")) ∧
    detectGitForceFilepath (str "./a") (str "pwd") (str "git") [] =
      .error (str "unable to resolve 'git::' forced filepath (" ++ str "pwd" ++
              str "); provided pwd filepath (" ++ ([] : Str) ++
              str ") is not rooted") ∧
    detectGitForceFilepath (str "./a") [] (str "git") [] =
      .error (str "unable to resolve 'git::' force filepath (" ++ str "./a" ++
              str "); neither pwd nor srcResolveFrom param was provided") :=
  ⟨detectGitForceFilepath_base_selection.1 (str "/a") (str "p") (str "s")
      (by decide),
   detectGitForceFilepath_base_selection.2.1 (str "./a") (str "") (str "/base")
      (by decide) (by decide) (by decide) (by decide),
   detectGitForceFilepath_base_selection.2.2.1 (str "./a") (str "") (str "base")
      (by decide) (by decide) (by decide) (by decide),
   detectGitForceFilepath_base_selection.2.2.2.1 (str "./a") (str "/pwd")
      (by decide) (by decide) (by decide) (by decide),
   detectGitForceFilepath_base_selection.2.2.2.2.1 (str "./a") (str "pwd")
      (by decide) (by decide) (by decide) (by decide),
   detectGitForceFilepath_base_selection.2.2.2.2.2 (str "./a")
      (by decide) (by decide)⟩

/-- **C7, counterexample.** The Git detector commits on
`git@github.com:hashicorp/foo.git` with a uri that *does* begin with the
forced-backend token `git::`, contradicting the claim that a detected
result never itself begins with such a token. -/
theorem git_detector_result_carries_token :
    GitDetector.Detect (str "git@github.com:hashicorp/foo.git") (str "/pwd") =
      .ok (str "git::ssh://git@github.com/hashicorp/foo.git", true) ∧
    str "git::" <+: str "git::ssh://git@github.com/hashicorp/foo.git" := by
  constructor
  · rfl
  · exact ⟨str "ssh://git@github.com/hashicorp/foo.git", rfl⟩

/-- On success, the URI builder's result is the force token, `"::"`, and
a serialized URL. -/
theorem buildGitFileURI_ok {force sr r : Str} {b : Bool}
    (h : buildGitFileURI force sr = .ok (r, b)) :
    ∃ u, r = force ++ str "::" ++ uString u := by
  unfold buildGitFileURI at h
  dsimp only [] at h
  split at h
  · exact Except.noConfusion h
  · next u heq =>
    simp only [Except.ok.injEq, Prod.mk.injEq] at h
    exact ⟨u, h.1.symm⟩

/-- Commits of the forced-filepath resolver begin with `git::`. -/
theorem dgff_commit_carries_token {src pwd force srf r : Str}
    (h : detectGitForceFilepath src pwd force srf = .ok (r, true)) :
    str "git::" <+: r := by
  unfold detectGitForceFilepath at h
  by_cases hf : force = str "git"
  · subst hf
    rw [if_neg (by simp)] at h
    split at h
    · simp at h
    · split at h
      · obtain ⟨u, hu⟩ := buildGitFileURI_ok h
        exact ⟨uString u, by rw [hu]; rfl⟩
      · split at h
        · simp at h
        · split at h
          · split at h
            · exact Except.noConfusion h
            · obtain ⟨u, hu⟩ := buildGitFileURI_ok h
              exact ⟨uString u, by rw [hu]; rfl⟩
          · split at h
            · split at h
              · exact Except.noConfusion h
              · obtain ⟨u, hu⟩ := buildGitFileURI_ok h
                exact ⟨uString u, by rw [hu]; rfl⟩
            · exact Except.noConfusion h
  · rw [if_pos hf] at h
    simp at h

/-- Commits of the contextual SSH tail begin with `git::`. -/
theorem gitCtxSSH_commit_carries_token {src forceToken r : Str}
    (h : gitCtxSSH src forceToken = .ok (r, true)) :
    str "git::" <+: r := by
  unfold gitCtxSSH at h
  split at h
  · split at h
    · exact Except.noConfusion h
    · simp at h
  · split at h
    · split at h
      · exact Except.noConfusion h
      · simp at h
    · simp only [Except.ok.injEq, Prod.mk.injEq] at h
      exact ⟨_, h.1⟩

/-- **C7, amended.** On every commit the Git detectors' uri *does* begin
with their own forced-backend token `git::`; it is the dispatcher
(`handleDetected`) that strips the detector-supplied token and reattaches
a single dominant one. -/
theorem detector_commit_carries_git_token :
    (∀ src pwd r, GitDetector.Detect src pwd = .ok (r, true) →
      str "git::" <+: r) ∧
    (∀ src pwd force srf r,
      detectGitForceFilepath src pwd force srf = .ok (r, true) →
      str "git::" <+: r) ∧
    (∀ src pwd ft csd srf r,
      GitCtxDetector.CtxDetect src pwd ft csd srf = .ok (r, true) →
      str "git::" <+: r) := by
  refine ⟨?_, fun src pwd force srf r h => dgff_commit_carries_token h, ?_⟩
  · intro src pwd r h
    unfold GitDetector.Detect at h
    split at h
    · simp at h
    · split at h
      · simp at h
      · split at h
        · simp at h
        · simp only [Except.ok.injEq, Prod.mk.injEq] at h
          exact ⟨_, h.1⟩
  · intro src pwd ft csd srf r h
    unfold GitCtxDetector.CtxDetect at h
    split at h
    · split at h
      · exact Except.noConfusion h
      · simp at h
    · split at h
      · split at h
        · exact Except.noConfusion h
        · simp only [Except.ok.injEq, Prod.mk.injEq] at h
          exact h.1 ▸ dgff_commit_carries_token (by assumption)
        · exact gitCtxSSH_commit_carries_token h
      · exact gitCtxSSH_commit_carries_token h

/-- Witness for the amended C7 at the SSH commit of the GitHub example. -/
theorem detector_commit_carries_git_token_witness :
    str "git::" <+: str "git::ssh://git@github.com/hashicorp/foo.git" :=
  detector_commit_carries_git_token.1 (str "git@github.com:hashicorp/foo.git")
    (str "/pwd") (str "git::ssh://git@github.com/hashicorp/foo.git") (by decide)

/-- A detector erring after a run of decliners aborts the loop with that
error. -/
theorem detectLoop_error (getSrc pwd getForce subDir src : Str)
    (ds₁ : List Detector) (d : Detector) (ds₂ : List Detector) (e : Str)
    (h₁ : ∀ d' ∈ ds₁, ∃ r, d' getSrc pwd = .ok (r, false))
    (hd : d getSrc pwd = .error e) :
    detectLoop getSrc pwd getForce subDir src (ds₁ ++ d :: ds₂) = .error e := by
  induction ds₁ with
  | nil => simp [detectLoop, hd]
  | cons d' t ih =>
    obtain ⟨r, hr⟩ := h₁ d' (List.mem_cons_self d' t)
    simp only [List.cons_append, detectLoop, hr]
    exact ih fun x hx => h₁ x (List.mem_cons_of_mem d' hx)

/-- A chain of decliners exhausts into the unrecognized-address error. -/
theorem detectLoop_exhaust (getSrc pwd getForce subDir src : Str)
    (ds : List Detector)
    (h : ∀ d ∈ ds, ∃ r, d getSrc pwd = .ok (r, false)) :
    detectLoop getSrc pwd getForce subDir src ds =
      .error (str "invalid source string: " ++ src) := by
  induction ds with
  | nil => rfl
  | cons d t ih =>
    obtain ⟨r, hr⟩ := h d (List.mem_cons_self d t)
    simp only [detectLoop, hr]
    exact ih fun x hx => h x (List.mem_cons_of_mem d hx)

/-- Contextual version of `detectLoop_error`. -/
theorem ctxDetectLoop_error (getSrc pwd getForce subDir srf src : Str)
    (ds₁ : List CtxDetector) (d : CtxDetector) (ds₂ : List CtxDetector) (e : Str)
    (h₁ : ∀ d' ∈ ds₁, ∃ r, d' getSrc pwd getForce subDir srf = .ok (r, false))
    (hd : d getSrc pwd getForce subDir srf = .error e) :
    ctxDetectLoop getSrc pwd getForce subDir srf src (ds₁ ++ d :: ds₂) =
      .error e := by
  induction ds₁ with
  | nil => simp [ctxDetectLoop, hd]
  | cons d' t ih =>
    obtain ⟨r, hr⟩ := h₁ d' (List.mem_cons_self d' t)
    simp only [List.cons_append, ctxDetectLoop, hr]
    exact ih fun x hx => h₁ x (List.mem_cons_of_mem d' hx)

/-- Contextual version of `detectLoop_exhaust`. -/
theorem ctxDetectLoop_exhaust (getSrc pwd getForce subDir srf src : Str)
    (ds : List CtxDetector)
    (h : ∀ d ∈ ds, ∃ r, d getSrc pwd getForce subDir srf = .ok (r, false)) :
    ctxDetectLoop getSrc pwd getForce subDir srf src ds =
      .error (str "invalid source string: " ++ src) := by
  induction ds with
  | nil => rfl
  | cons d t ih =>
    obtain ⟨r, hr⟩ := h d (List.mem_cons_self d t)
    simp only [ctxDetectLoop, hr]
    exact ih fun x hx => h x (List.mem_cons_of_mem d hx)

/-- The body and grammar parts the dispatchers hand to the detectors. -/
def dispatchBody (src : Str) : Str := (SourceDirSubdir (getForcedGetter src).2).1

/-- **C8.** When the URI probe fails, a detector error — after any run of
declining detectors — aborts `Detect`/`CtxDetect` immediately with that
error, later detectors untried; and a fully declining chain fails with
`"invalid source string: " ++ src`. -/
theorem detect_error_propagation_and_exhaustion :
    (∀ src pwd (ds₁ : List Detector) d ds₂ e,
      isValidURL (dispatchBody src) = false →
      (∀ d' ∈ ds₁, ∃ r, d' (dispatchBody src) pwd = .ok (r, false)) →
      d (dispatchBody src) pwd = .error e →
      Detect src pwd (ds₁ ++ d :: ds₂) = .error e) ∧
    (∀ src pwd (ds : List Detector),
      isValidURL (dispatchBody src) = false →
      (∀ d ∈ ds, ∃ r, d (dispatchBody src) pwd = .ok (r, false)) →
      Detect src pwd ds = .error (str "invalid source string: " ++ src)) ∧
    (∀ src pwd srf (cds₁ : List CtxDetector) d cds₂ e,
      isValidURL (dispatchBody src) = false →
      (∀ d' ∈ cds₁, ∃ r,
        d' (dispatchBody src) pwd (getForcedGetter src).1
           (SourceDirSubdir (getForcedGetter src).2).2 srf = .ok (r, false)) →
      d (dispatchBody src) pwd (getForcedGetter src).1
         (SourceDirSubdir (getForcedGetter src).2).2 srf = .error e →
      CtxDetect src pwd srf (cds₁ ++ d :: cds₂) = .error e) ∧
    (∀ src pwd srf (cds : List CtxDetector),
      isValidURL (dispatchBody src) = false →
      (∀ d ∈ cds, ∃ r,
        d (dispatchBody src) pwd (getForcedGetter src).1
           (SourceDirSubdir (getForcedGetter src).2).2 srf = .ok (r, false)) →
      CtxDetect src pwd srf cds =
        .error (str "invalid source string: " ++ src)) := by
  refine ⟨?_, ?_, ?_, ?_⟩
  · intro src pwd ds₁ d ds₂ e hprobe h₁ hd
    unfold Detect
    simp only [dispatchBody] at hprobe h₁ hd
    simp only [hprobe, Bool.false_eq_true, if_false]
    exact detectLoop_error _ pwd _ _ src ds₁ d ds₂ e h₁ hd
  · intro src pwd ds hprobe h
    unfold Detect
    simp only [dispatchBody] at hprobe h
    simp only [hprobe, Bool.false_eq_true, if_false]
    exact detectLoop_exhaust _ pwd _ _ src ds h
  · intro src pwd srf cds₁ d cds₂ e hprobe h₁ hd
    unfold CtxDetect
    simp only [dispatchBody] at hprobe h₁ hd
    simp only [hprobe, Bool.false_eq_true, if_false]
    exact ctxDetectLoop_error _ pwd _ _ srf src cds₁ d cds₂ e h₁ hd
  · intro src pwd srf cds hprobe h
    unfold CtxDetect
    simp only [dispatchBody] at hprobe h
    simp only [hprobe, Bool.false_eq_true, if_false]
    exact ctxDetectLoop_exhaust _ pwd _ _ srf src cds h

/-- Witness for C8: a declining detector followed by an erring one aborts
with the error; an all-declining chain produces the unrecognized-address
message. -/
theorem detect_error_propagation_and_exhaustion_witness :
    Detect (str "somedir") (str "/pwd")
      ([GitDetector.Detect] ++ (fun _ _ => .error (str "boom")) :: [fun _ _ => .ok (str "later", true)]) =
      .error (str "boom") ∧
    Detect (str "somedir") (str "/pwd") [GitDetector.Detect] =
      .error (str "invalid source string: " ++ str "somedir") :=
  ⟨detect_error_propagation_and_exhaustion.1 (str "somedir") (str "/pwd")
      [GitDetector.Detect] (fun _ _ => .error (str "boom"))
      [fun _ _ => .ok (str "later", true)] (str "boom") (by decide)
      (by intro d' hd'
          simp only [List.mem_singleton] at hd'
          exact ⟨[], by rw [hd']; decide⟩)
      rfl,
   detect_error_propagation_and_exhaustion.2.1 (str "somedir") (str "/pwd")
      [GitDetector.Detect] (by decide)
      (by intro d hd
          simp only [List.mem_singleton] at hd
          exact ⟨[], by rw [hd]; decide⟩)⟩

/-- **C9, counterexample.** `detect` is not idempotent on its successes:
on `git@[x:path` it succeeds with `git::ssh://git@[x/path`, but applied to
that very output (whose rewritten host no longer re-parses as a URL, `[`
having no matching `]`) it fails with an unrecognized-address error. -/
theorem detect_not_idempotent :
    Detect (str "git@[x:path") (str "/pwd") [GitDetector.Detect] =
      .ok (str "git::ssh://git@[x/path") ∧
    Detect (str "git::ssh://git@[x/path") (str "/pwd") [GitDetector.Detect] =
      .error (str "invalid source string: git::ssh://git@[x/path") := by
  constructor
  · rfl
  · rfl

/-- **C9, amended.** `detect` is idempotent on every success whose result
still re-parses: if `Detect` (resp. `CtxDetect`) succeeds with `r`, and
the body of `r` — after stripping the force token and `//subdir` — parses
as a URI with non-empty scheme (which the counterexample shows can fail,
e.g. for a rewritten host containing `[` without `]`), then applying the
same call to `r` returns `r` unchanged. -/
theorem detect_idempotent_on_reparsable :
    (∀ src pwd (ds : List Detector) r u,
      Detect src pwd ds = .ok r →
      urlParse (dispatchBody r) = .ok u → u.scheme ≠ [] →
      Detect r pwd ds = .ok r) ∧
    (∀ src pwd srf (cds : List CtxDetector) r u,
      CtxDetect src pwd srf cds = .ok r →
      urlParse (dispatchBody r) = .ok u → u.scheme ≠ [] →
      CtxDetect r pwd srf cds = .ok r) := by
  constructor
  · intro src pwd ds r u _ hp hs
    simp only [dispatchBody] at hp
    unfold Detect
    simp only [isValidURL_of_parse hp hs, if_true]
  · intro src pwd srf cds r u _ hp hs
    simp only [dispatchBody] at hp
    unfold CtxDetect
    simp only [isValidURL_of_parse hp hs, if_true]

/-- **C6.** Reassembly on a winning match: `handleDetected` strips the
detector's own force token, merges detector-reported and caller-supplied
subdirs detector-first (`mergeSubdir`, a path join), appends the merged
subdir to the URL's path as `"//" ++ merged` while storing it raw
(`rawPath`) so wildcard characters stay literal, and prefixes exactly one
force token, the caller's winning over the detector's.  In particular
`detect("git::./somedir/two//three", "/pwd", [Git])` (contextual entry
point, the one carrying forced-filepath support) ends in
`somedir/two//three` — the `//three` subdir survives — and a `*` in a
subdir survives unescaped. -/
theorem handleDetected_reassembly :
    (∀ dres sF sub dF r0 r1 dSub u,
      getForcedGetter dres = (dF, r0) →
      SourceDirSubdir r0 = (r1, dSub) →
      urlParse r1 = .ok u →
      mergeSubdir dSub sub ≠ [] →
      handleDetected dres sF sub =
        .ok (let newPath := u.path ++ str "//" ++ mergeSubdir dSub sub
             let body := uString { u with path := newPath, rawPath := newPath }
             if sF ≠ [] then sF ++ str "::" ++ body
             else if dF ≠ [] then dF ++ str "::" ++ body
             else body)) ∧
    CtxDetect (str "git::./somedir/two//three") (str "/pwd") []
      [GitCtxDetector.CtxDetect] =
      .ok (str "git::file:///pwd/somedir/two//three") ∧
    str "somedir/two//three" <:+ str "git::file:///pwd/somedir/two//three" ∧
    CtxDetect (str "git::./somedir//th*ree") (str "/pwd") []
      [GitCtxDetector.CtxDetect] =
      .ok (str "git::file:///pwd/somedir//th*ree") := by
  refine ⟨?_, by decide, by decide, by decide⟩
  intro dres sF sub dF r0 r1 dSub u h1 h2 h3 hm
  unfold handleDetected
  simp only [h1, h2, h3, hm, if_true, ite_not]
  simp [hm]

/-- Witness for C6: the reassembly equation applied to the Git detector's
output for the `foo.git//bar` example (caller subdir `bar`). -/
theorem handleDetected_reassembly_witness :
    handleDetected (str "git::ssh://git@github.com/hashicorp/foo.git")
      [] (str "bar") =
      .ok (let newPath := str "/hashicorp/foo.git" ++ str "//" ++
             mergeSubdir [] (str "bar")
           let body := uString
             { scheme := str "ssh", user := some (str "git"),
               host := str "github.com", path := newPath, rawPath := newPath }
           if ([] : Str) ≠ [] then [] ++ str "::" ++ body
           else if (str "git" : Str) ≠ [] then str "git" ++ str "::" ++ body
           else body) := by
  have h := handleDetected_reassembly.1
    (str "git::ssh://git@github.com/hashicorp/foo.git") [] (str "bar")
    (str "git") (str "ssh://git@github.com/hashicorp/foo.git")
    (str "ssh://git@github.com/hashicorp/foo.git") []
    { scheme := str "ssh", user := some (str "git"),
      host := str "github.com", path := str "/hashicorp/foo.git" }
    (by decide) (by decide) (by decide) (by decide)
  exact h

/-- Witness for the amended C9 at the GitHub SSH example. -/
theorem detect_idempotent_on_reparsable_witness :
    Detect (str "git::ssh://git@github.com/hashicorp/foo.git") (str "/pwd")
      [GitDetector.Detect] =
      .ok (str "git::ssh://git@github.com/hashicorp/foo.git") :=
  detect_idempotent_on_reparsable.1 (str "git@github.com:hashicorp/foo.git")
    (str "/pwd") [GitDetector.Detect]
    (str "git::ssh://git@github.com/hashicorp/foo.git")
    { scheme := str "ssh", user := some (str "git"), host := str "github.com",
      path := str "/hashicorp/foo.git" }
    (by decide) (by decide) (by decide)

/-! ### Scanning lemmas for the claim on query preservation (C5) -/

theorem cutBefore_append_of_not_mem {c : Char} {a : Str} (b : Str) (h : c ∉ a) :
    cutBefore c (a ++ b) = a ++ cutBefore c b := by
  induction a with
  | nil => rfl
  | cons x t ih =>
    simp only [List.mem_cons, not_or] at h
    simp [cutBefore, Ne.symm h.1, ih h.2]

theorem cutAfter_append_of_not_mem {c : Char} {a : Str} (b : Str) (h : c ∉ a) :
    cutAfter c (a ++ b) = cutAfter c b := by
  induction a with
  | nil => rfl
  | cons x t ih =>
    simp only [List.mem_cons, not_or] at h
    simp [cutAfter, Ne.symm h.1, ih h.2]

theorem cutBefore_of_not_mem {c : Char} {s : Str} (h : c ∉ s) :
    cutBefore c s = s := by
  induction s with
  | nil => rfl
  | cons x t ih =>
    simp only [List.mem_cons, not_or] at h
    simp [cutBefore, Ne.symm h.1, ih h.2]

theorem cutAfter_of_not_mem {c : Char} {s : Str} (h : c ∉ s) :
    cutAfter c s = none := by
  induction s with
  | nil => rfl
  | cons x t ih =>
    simp only [List.mem_cons, not_or] at h
    simp [cutAfter, Ne.symm h.1, ih h.2]

theorem not_mem_cutBefore (c : Char) (s : Str) : c ∉ cutBefore c s := by
  induction s with
  | nil => simp [cutBefore]
  | cons x t ih =>
    by_cases hx : x = c
    · simp [cutBefore, hx]
    · simp [cutBefore, hx, ih, Ne.symm hx]

theorem mem_cutBefore {x c : Char} {s : Str} (h : x ∈ cutBefore c s) : x ∈ s := by
  induction s with
  | nil => simp [cutBefore] at h
  | cons a t ih =>
    by_cases ha : a = c
    · simp [cutBefore, ha] at h
    · rw [cutBefore, if_neg ha] at h
      rcases List.mem_cons.mp h with h | h
      · exact h ▸ List.mem_cons_self a t
      · exact List.mem_cons_of_mem a (ih h)

theorem cutAfter_eq_some_iff {c : Char} {s t : Str} :
    cutAfter c s = some t ↔ s = cutBefore c s ++ c :: t := by
  constructor
  · intro h
    induction s generalizing t with
    | nil => exact Option.noConfusion h
    | cons a u ih =>
      by_cases ha : a = c
      · rw [cutAfter, if_pos ha] at h
        obtain rfl := Option.some.injEq _ _ ▸ h
        simp [cutBefore, ha, Option.some.inj h]
      · rw [cutAfter, if_neg ha] at h
        rw [cutBefore, if_neg ha]
        simpa using ih h
  · intro h
    conv_lhs => rw [h]
    rw [cutAfter_append_of_not_mem _ (not_mem_cutBefore c s), cutAfter, if_pos rfl]

theorem head?_cutBefore {c x : Char} {s : Str} (h : s.head? = some x)
    (hx : x ≠ c) : (cutBefore c s).head? = some x := by
  cases s with
  | nil => exact Option.noConfusion h
  | cons a t =>
    obtain rfl : a = x := by simpa using h
    simp [cutBefore, hx]

/-- `hexChar` below 16 is a digit or an upper-case letter, hence never a
character the path mode escapes. -/
theorem hexChar_not_escaped {n : Nat} (h : n < 16) :
    shouldEscape (hexChar n) .path = false := by
  interval_cases n <;> decide

/-- A character the path mode escapes (other than `'%'` itself) never
survives into `escape`'s output. -/
theorem not_mem_escape_path {c : Char} (s : Str)
    (hc : shouldEscape c .path = true) (hpc : c ≠ '%') :
    c ∉ escape s .path := by
  induction s with
  | nil => simp [escape]
  | cons a t ih =>
    rw [escape]
    intro hmem
    rcases List.mem_append.mp hmem with h | h
    · by_cases ha : shouldEscape a .path
      · rw [if_pos ha] at h
        have h16a : a.toNat % 256 / 16 < 16 := by omega
        have h16b : a.toNat % 16 < 16 := by omega
        simp only [List.mem_cons, List.not_mem_nil, or_false] at h
        rcases h with h | h | h
        · exact hpc h
        · rw [h] at hc
          rw [hexChar_not_escaped h16a] at hc
          exact Bool.noConfusion hc
        · rw [h] at hc
          rw [hexChar_not_escaped h16b] at hc
          exact Bool.noConfusion hc
      · rw [if_neg ha] at h
        obtain rfl : c = a := by simpa using h
        exact ha hc
    · exact ih h

theorem splitSeg_ne_nil (s : Str) : splitSeg s ≠ [] := by
  cases s with
  | nil => simp [splitSeg]
  | cons c t =>
    rw [splitSeg]
    split
    · simp
    · cases h : splitSeg t with
      | nil => exact absurd h (splitSeg_ne_nil t)
      | cons a l => simp [List.modifyHead]

theorem splitSeg_of_no_slash {b : Str} (h : '/' ∉ b) : splitSeg b = [b] := by
  induction b with
  | nil => rfl
  | cons c t ih =>
    simp only [List.mem_cons, not_or] at h
    rw [splitSeg, if_neg (Ne.symm h.1), ih h.2]
    rfl

theorem dropLast_append_ne {α : Type} {l₂ : List α} (l₁ : List α) (h : l₂ ≠ []) :
    (l₁ ++ l₂).dropLast = l₁ ++ l₂.dropLast := by
  induction l₁ with
  | nil => rfl
  | cons a t ih =>
    have hne : t ++ l₂ ≠ [] := by
      simp [h]
    rw [List.cons_append, List.dropLast_cons_of_ne_nil hne, ih]
    rfl

/-- Splitting at `'/'` distributes over appending a slash-free tail: the
tail extends the final segment. -/
theorem splitSeg_append_right (a : Str) {b : Str} (hb : '/' ∉ b) :
    splitSeg (a ++ b) =
      (splitSeg a).dropLast ++ [(splitSeg a).getLastD [] ++ b] := by
  induction a with
  | nil => simp [splitSeg, splitSeg_of_no_slash hb]
  | cons c t ih =>
    by_cases hc : c = '/'
    · subst hc
      rw [List.cons_append, splitSeg, if_pos rfl, ih, splitSeg, if_pos rfl,
        List.dropLast_cons_of_ne_nil (by simp [splitSeg_ne_nil t]),
        List.getLastD_cons]
      rfl
    · rw [List.cons_append, splitSeg, if_neg hc, ih, splitSeg, if_neg hc]
      cases h : splitSeg t with
      | nil => exact absurd h (splitSeg_ne_nil t)
      | cons s0 rest =>
        cases rest with
        | nil => simp [List.modifyHead]
        | cons s1 rest' =>
          have h2 : (s1 : Str) :: rest' ≠ [] := by simp
          simp only [List.modifyHead, List.dropLast_cons_of_ne_nil h2,
            List.getLastD_cons, List.cons_append]

theorem mem_splitSeg {c : Char} {seg s : Str} (hseg : seg ∈ splitSeg s)
    (hc : c ∈ seg) : c ∈ s := by
  induction s generalizing seg with
  | nil =>
    simp only [splitSeg, List.mem_singleton] at hseg
    subst hseg
    exact absurd hc (List.not_mem_nil c)
  | cons a t ih =>
    rw [splitSeg] at hseg
    split at hseg
    · rcases List.mem_cons.mp hseg with h | h
      · subst h
        exact absurd hc (List.not_mem_nil c)
      · exact List.mem_cons_of_mem a (ih h hc)
    · cases h : splitSeg t with
      | nil => exact absurd h (splitSeg_ne_nil t)
      | cons s0 rest =>
        rw [h] at hseg
        simp only [List.modifyHead, List.mem_cons] at hseg
        rcases hseg with hseg | hseg
        · subst hseg
          rcases List.mem_cons.mp hc with h' | h'
          · exact h' ▸ List.mem_cons_self a t
          · exact List.mem_cons_of_mem a
              (ih (by rw [h]; exact List.mem_cons_self s0 rest) h')
        · exact List.mem_cons_of_mem a
            (ih (by rw [h]; exact List.mem_cons_of_mem s0 hseg) hc)

theorem getLastD_mem {α : Type} {l : List α} (h : l ≠ []) (d : α) :
    l.getLastD d ∈ l := by
  rw [List.getLastD_eq_getLast?, List.getLast?_eq_getLast l h]
  simp [List.getLast_mem h]

/-- A segment that is neither empty nor a dot entry is pushed. -/
theorem cleanStep_push (rooted : Bool) (stack : List Str) {L : Str}
    (h : '?' ∈ L) : cleanStep rooted stack L = stack ++ [L] := by
  have h1 : ¬(L = [] ∨ L = ['.']) := by
    rintro (rfl | rfl) <;> simp at h
  have h2 : L ≠ ['.', '.'] := by
    rintro rfl
    simp at h
  rw [cleanStep, if_neg h1, if_neg h2]

/-- Every element of the normalization stack is one of the processed
segments (or was there to begin with). -/
theorem mem_foldl_cleanStep {P : Str → Prop} (rooted : Bool) :
    ∀ (segs : List Str) (stack : List Str), (∀ x ∈ stack, P x) →
      (∀ x ∈ segs, P x) →
      ∀ x ∈ List.foldl (cleanStep rooted) stack segs, P x := by
  intro segs
  induction segs with
  | nil => intro stack hs _ x hx; exact hs x hx
  | cons seg t ih =>
    intro stack hs hsegs x hx
    rw [List.foldl_cons] at hx
    refine ih (cleanStep rooted stack seg) ?_ (fun y hy => hsegs y (List.mem_cons_of_mem seg hy)) x hx
    intro y hy
    rw [cleanStep] at hy
    split at hy
    · exact hs y hy
    · split at hy
      · split at hy
        · split at hy
          · rcases List.mem_append.mp hy with h | h
            · exact hs y h
            · obtain rfl := List.mem_singleton.mp h
              exact hsegs _ (List.mem_cons_self _ t)
          · exact hs y (List.mem_of_mem_dropLast hy)
        · split at hy
          · exact absurd hy (List.not_mem_nil y)
          · obtain rfl := List.mem_singleton.mp hy
            exact hsegs _ (List.mem_cons_self _ t)
      · rcases List.mem_append.mp hy with h | h
        · exact hs y h
        · obtain rfl := List.mem_singleton.mp h
          exact hsegs _ (List.mem_cons_self _ t)

theorem joinSegs_cons_ne (s : Str) {rest : List Str} (h : rest ≠ []) :
    joinSegs (s :: rest) = s ++ '/' :: joinSegs rest := by
  cases rest with
  | nil => exact absurd rfl h
  | cons b u => rfl

theorem joinSegs_append_last (A : List Str) (L : Str) :
    joinSegs (A ++ [L]) =
      if A = [] then L else joinSegs A ++ '/' :: L := by
  induction A with
  | nil => rfl
  | cons a t ih =>
    rw [List.cons_append, joinSegs_cons_ne a (by simp), ih]
    cases t with
    | nil => simp [joinSegs]
    | cons b u =>
      rw [if_neg (by simp), if_neg (by simp), joinSegs_cons_ne a (by simp)]
      simp

theorem mem_joinSegs {c : Char} {A : List Str} (h : c ∈ joinSegs A) :
    (∃ seg ∈ A, c ∈ seg) ∨ c = '/' := by
  induction A with
  | nil => simp [joinSegs] at h
  | cons a t ih =>
    cases t with
    | nil =>
      simp only [joinSegs] at h
      exact .inl ⟨a, List.mem_cons_self a [], h⟩
    | cons b u =>
      rw [joinSegs_cons_ne a (by simp)] at h
      rcases List.mem_append.mp h with h | h
      · exact .inl ⟨a, List.mem_cons_self a _, h⟩
      · rcases List.mem_cons.mp h with h | h
        · exact .inr h
        · rcases ih h with ⟨seg, hseg, hc⟩ | h
          · exact .inl ⟨seg, List.mem_cons_of_mem a hseg, hc⟩
          · exact .inr h

/-- Characters of a cleaned path come from the input, the separator, or
the dot. -/
theorem mem_clean {c : Char} {s : Str} (h : c ∈ clean s) :
    c ∈ s ∨ c = '/' ∨ c = '.' := by
  unfold clean at h
  split at h
  · right; right; simpa using h
  · unfold renderSegs at h
    dsimp only [] at h
    have hstack : ∀ x ∈ List.foldl (cleanStep (isAbs s)) [] (splitSeg s),
        ∀ ch ∈ x, ch ∈ s := by
      refine mem_foldl_cleanStep (isAbs s) (splitSeg s) [] (by simp) ?_
      intro seg hseg ch hch
      exact mem_splitSeg hseg hch
    split at h
    · rcases List.mem_cons.mp h with h | h
      · exact .inr (.inl h)
      · rcases mem_joinSegs h with ⟨seg, hseg, hc⟩ | h
        · exact .inl (hstack seg hseg c hc)
        · exact .inr (.inl h)
    · split at h
      · right; right; simpa using h
      · rcases mem_joinSegs h with ⟨seg, hseg, hc⟩ | h
        · exact .inl (hstack seg hseg c hc)
        · exact .inr (.inl h)

/-- `filepath.Clean` keeps a slash-free query suffix intact: the cleaned
path still ends in `'?' :: q`, and the part before it stays free of
`'?'`. -/
theorem clean_preserves_query {x q : Str} (hx : '?' ∉ x) (hq : '/' ∉ q) :
    ∃ y, clean (x ++ '?' :: q) = y ++ '?' :: q ∧ '?' ∉ y := by
  have hb : '/' ∉ ('?' :: q : Str) := by
    simp only [List.mem_cons, not_or]
    exact ⟨by decide, hq⟩
  have hsne : x ++ '?' :: q ≠ [] := by simp
  unfold clean
  rw [if_neg hsne, splitSeg_append_right x hb]
  set rooted := isAbs (x ++ '?' :: q) with hrooted
  set lastx := (splitSeg x).getLastD [] with hlastx
  set A := (splitSeg x).dropLast with hA
  have hlastx_free : '?' ∉ lastx := by
    intro hmem
    exact hx (mem_splitSeg (getLastD_mem (splitSeg_ne_nil x) []) hmem)
  have hA_free : ∀ seg ∈ A, '?' ∉ seg := by
    intro seg hseg hmem
    exact hx (mem_splitSeg (List.mem_of_mem_dropLast hseg) hmem)
  have hL : '?' ∈ lastx ++ '?' :: q := by simp
  rw [List.foldl_append, List.foldl_cons, List.foldl_nil,
    cleanStep_push rooted _ hL]
  set stack0 := List.foldl (cleanStep rooted) [] A with hstack0
  have hstack0_free : ∀ seg ∈ stack0, '?' ∉ seg :=
    mem_foldl_cleanStep rooted A [] (by simp) hA_free
  have hjoin_free : '?' ∉ joinSegs stack0 := by
    intro hmem
    rcases mem_joinSegs hmem with ⟨seg, hseg, hc⟩ | hslash
    · exact hstack0_free seg hseg hc
    · exact absurd hslash (by decide)
  unfold renderSegs
  dsimp only []
  rw [joinSegs_append_last]
  by_cases hs0 : stack0 = []
  · rw [if_pos hs0]
    cases hr : rooted with
    | true =>
      refine ⟨'/' :: lastx, ?_, ?_⟩
      · simp
      · simp only [List.mem_cons, not_or]
        exact ⟨by decide, hlastx_free⟩
    | false =>
      rw [if_neg (show ¬(lastx ++ '?' :: q = []) by simp)]
      exact ⟨lastx, rfl, hlastx_free⟩
  · rw [if_neg hs0]
    cases hr : rooted with
    | true =>
      refine ⟨'/' :: (joinSegs stack0 ++ '/' :: lastx), ?_, ?_⟩
      · simp
      · simp only [List.mem_cons, List.mem_append, not_or]
        exact ⟨by decide, hjoin_free, by decide, hlastx_free⟩
    | false =>
      rw [if_neg (show ¬(joinSegs stack0 ++ '/' :: (lastx ++ '?' :: q) = []) by simp)]
      refine ⟨joinSegs stack0 ++ '/' :: lastx, ?_, ?_⟩
      · simp
      · simp only [List.mem_append, List.mem_cons, not_or]
        exact ⟨hjoin_free, by decide, hlastx_free⟩

/-! ### Structural lemmas on the `net/url` model for `file://` inputs -/

theorem getScheme_file (z : Str) :
    getScheme (str "file:" ++ z) = .ok (str "file", z) := rfl

theorem parseAuthority_nil : parseAuthority [] = .ok (none, none, []) := rfl

theorem querySplit_no_query {z : Str} (h : '?' ∉ z) :
    querySplit z = (z, false, []) := by
  unfold querySplit
  rw [cutAfter_of_not_mem h, if_neg]
  rintro ⟨h1, -⟩
  obtain ⟨hne, heq⟩ := List.mem_getLast?_eq_getLast (Option.mem_def.mpr h1)
  exact h (heq ▸ List.getLast_mem hne)

/-- The query split on `//y?q` (`y` free of `'?'`): `q` empty sets
`ForceQuery`, otherwise `q` becomes the raw query; the rest is `//y`
either way. -/
theorem querySplit_of_query {y : Str} (q : Str) (hy : '?' ∉ y) :
    querySplit (str "//" ++ (y ++ '?' :: q)) =
      if q = [] then (str "//" ++ y, true, []) else (str "//" ++ y, false, q) := by
  have hny : '?' ∉ str "//" ++ y := by
    simp only [List.mem_append, not_or]
    exact ⟨by decide, hy⟩
  have hassoc : str "//" ++ (y ++ '?' :: q) = (str "//" ++ y) ++ '?' :: q := by
    rw [List.append_assoc]
  by_cases hq : q = []
  · subst hq
    rw [if_pos rfl]
    unfold querySplit
    rw [hassoc, if_pos]
    · rw [show ('?' :: [] : Str) = ['?'] from rfl, List.dropLast_concat]
    · constructor
      · rw [show ('?' :: [] : Str) = ['?'] from rfl,
          List.getLast?_append_of_ne_nil _ (by simp)]
        rfl
      · rw [show ('?' :: [] : Str) = ['?'] from rfl, List.dropLast_concat]
        exact hny
  · rw [if_neg hq]
    unfold querySplit
    rw [hassoc, if_neg, cutAfter_append_of_not_mem _ hny, cutAfter,
      if_pos rfl, cutBefore_append_of_not_mem _ hny, cutBefore, if_pos rfl,
      List.append_nil]
    rintro ⟨-, hdrop⟩
    apply hdrop
    rw [dropLast_append_ne _ (by simp)]
    apply List.mem_append_right
    cases q with
    | nil => exact absurd rfl hq
    | cons a t => simp [List.dropLast_cons_of_ne_nil]

/-- The query split after `//` keeps the leading slash of the body. -/
theorem querySplit_file_rest {d : Str} (hd : d.head? = some '/') :
    ∃ w fq rq, querySplit (str "//" ++ d) = (str "//" ++ w, fq, rq) ∧
      w.head? = some '/' := by
  obtain ⟨d', rfl⟩ : ∃ d', d = '/' :: d' := by
    cases d with
    | nil => exact Option.noConfusion hd
    | cons a t => exact ⟨t, by simpa using congrArg (fun o => o.getD 'x') hd⟩
  unfold querySplit
  split
  · next hcond =>
    have hne : ('/' : Char) :: d' ≠ [] := by simp
    rw [dropLast_append_ne _ hne]
    cases d' with
    | nil =>
      exfalso
      have := hcond.1
      rw [List.getLast?_append_of_ne_nil _ hne] at this
      simp at this
    | cons b t =>
      refine ⟨('/' :: b :: t).dropLast, true, [], rfl, ?_⟩
      rw [List.dropLast_cons_of_ne_nil (by simp)]
      rfl
  · rw [cutAfter_append_of_not_mem _ (by decide : '?' ∉ str "//")]
    cases hq : cutAfter '?' ('/' :: d') with
    | some q =>
      refine ⟨cutBefore '?' ('/' :: d'), false, q, ?_, ?_⟩
      · rw [cutBefore_append_of_not_mem _ (by decide : '?' ∉ str "//")]
      · exact head?_cutBefore rfl (by decide)
    | none => exact ⟨'/' :: d', false, [], rfl, rfl⟩

theorem unescape_head_slash {w' dec : Str}
    (h : unescape ('/' :: w') .path = .ok dec) : dec.head? = some '/' := by
  rw [show unescape ('/' :: w') Mode.path =
      (unescape w' Mode.path).map ('/' :: ·) from rfl] at h
  cases hu : unescape w' Mode.path with
  | error e => rw [hu] at h; exact Except.noConfusion h
  | ok t =>
    rw [hu] at h
    obtain rfl := (Except.ok.injEq _ _).mp h
    rfl

/-- Parsing `file://` followed by a slash-rooted body: the URL has the
`file` scheme, empty authority, a slash-rooted path decoded from the
query-stripped body, the query fields reported by `querySplit`, and no
fragment. -/
theorem parseNoFrag_file_core {d w : Str} {fq : Bool} {rq : Str} {u : URL}
    (hqs : querySplit (str "//" ++ d) = (str "//" ++ w, fq, rq))
    (hw : w.head? = some '/')
    (h : parseNoFrag (str "file://" ++ d) = .ok u) :
    u.scheme = str "file" ∧ u.opq = [] ∧ u.user = none ∧ u.host = [] ∧
    u.forceQuery = fq ∧ u.rawQuery = rq ∧ u.fragment = none ∧
    ∃ dec, unescape w .path = .ok dec ∧ u.path = dec ∧
      (u.rawPath = [] ∨ u.rawPath = w) := by
  obtain ⟨w', rfl⟩ : ∃ w', w = '/' :: w' := by
    cases w with
    | nil => exact Option.noConfusion hw
    | cons a t => exact ⟨t, by simpa using congrArg (fun o => o.getD 'x') hw⟩
  unfold parseNoFrag at h
  split at h
  · exact Except.noConfusion h
  · rw [show (str "file://" ++ d : Str) = str "file:" ++ (str "//" ++ d) from rfl,
      getScheme_file] at h
    dsimp only [] at h
    rw [hqs] at h
    dsimp only [] at h
    rw [show (str "//" ++ ('/' :: w') : Str) = '/' :: '/' :: '/' :: w' from rfl] at h
    rw [if_neg (show ¬(('/' :: '/' :: '/' :: w' : Str).head? ≠ some '/') by simp)] at h
    have hcond : (str "file" ≠ [] ∨
        ¬(['/', '/', '/'].isPrefixOf ('/' :: '/' :: '/' :: w') = true)) ∧
        (['/', '/'].isPrefixOf ('/' :: '/' :: '/' :: w') = true) :=
      ⟨Or.inl (by decide), rfl⟩
    rw [if_pos hcond] at h
    dsimp only [List.drop] at h
    rw [show cutBefore '/' ('/' :: w') = [] from rfl,
      show cutAfter '/' ('/' :: w') = some w' from rfl, parseAuthority_nil] at h
    dsimp only [] at h
    unfold setPath at h
    rw [show unescape ('/' :: w') Mode.path =
      (unescape w' Mode.path).map ('/' :: ·) from rfl] at h
    cases hu : unescape w' Mode.path with
    | error e =>
      rw [hu] at h
      exact Except.noConfusion h
    | ok dec' =>
      rw [hu] at h
      dsimp only [Except.map] at h
      obtain rfl := ((Except.ok.injEq _ _).mp h).symm
      refine ⟨rfl, rfl, rfl, rfl, rfl, rfl, rfl, '/' :: dec', ?_, rfl, ?_⟩
      · rw [show unescape ('/' :: w') Mode.path =
          (unescape w' Mode.path).map ('/' :: ·) from rfl, hu]
        rfl
      · dsimp only []
        split
        · exact .inl rfl
        · exact .inr rfl

theorem not_mem_of_cutAfter_none {c : Char} {s : Str}
    (h : cutAfter c s = none) : c ∉ s := by
  induction s with
  | nil => simp
  | cons a t ih =>
    rw [cutAfter] at h
    split at h
    · exact Option.noConfusion h
    · next ha =>
      simp only [List.mem_cons, not_or]
      exact ⟨fun hc => ha hc.symm, ih h⟩

/-- `url.Parse` on `file://` plus a slash-rooted body, fragment split
included. -/
theorem urlParse_file_core {d w : Str} {fq : Bool} {rq : Str} {u : URL}
    (hqs : querySplit (str "//" ++ cutBefore '#' d) = (str "//" ++ w, fq, rq))
    (hw : w.head? = some '/')
    (h : urlParse (str "file://" ++ d) = .ok u) :
    u.scheme = str "file" ∧ u.opq = [] ∧ u.user = none ∧ u.host = [] ∧
    u.forceQuery = fq ∧ u.rawQuery = rq ∧
    ('#' ∉ d → u.fragment = none) ∧
    ∃ dec, unescape w .path = .ok dec ∧ u.path = dec ∧
      (u.rawPath = [] ∨ u.rawPath = w) := by
  unfold urlParse at h
  rw [cutAfter_append_of_not_mem d (by decide : '#' ∉ str "file://")] at h
  cases hfr : cutAfter '#' d with
  | none =>
    rw [hfr] at h
    have hnm : '#' ∉ d := not_mem_of_cutAfter_none hfr
    rw [cutBefore_of_not_mem hnm] at hqs
    obtain ⟨h1, h2, h3, h4, h5, h6, h7, hpath⟩ := parseNoFrag_file_core hqs hw h
    exact ⟨h1, h2, h3, h4, h5, h6, fun _ => h7, hpath⟩
  | some frag =>
    rw [hfr,
      cutBefore_append_of_not_mem d (by decide : '#' ∉ str "file://")] at h
    cases hpf : parseNoFrag (str "file://" ++ cutBefore '#' d) with
    | error e =>
      rw [hpf] at h
      exact Except.noConfusion h
    | ok u' =>
      rw [hpf] at h
      dsimp only [] at h
      obtain ⟨h1, h2, h3, h4, h5, h6, h7, hpath⟩ :=
        parseNoFrag_file_core hqs hw hpf
      cases hue : unescape frag .fragment with
      | error e =>
        rw [hue] at h
        exact Except.noConfusion h
      | ok f =>
        rw [hue] at h
        obtain rfl := ((Except.ok.injEq _ _).mp h).symm
        refine ⟨h1, h2, h3, h4, h5, h6, ?_, hpath⟩
        intro hnm
        exact absurd ((cutAfter_eq_some_iff).mp hfr ▸ (by simp : '#' ∈ cutBefore '#' d ++ '#' :: frag)) hnm

theorem escape_head_slash (t : Str) :
    escape ('/' :: t) .path = '/' :: escape t .path := by
  rw [escape, if_neg (by decide)]
  rfl

/-- Serialization of a `file`-scheme URL with empty authority and a
slash-rooted path: `file://` then the escaped path, query and fragment. -/
theorem uString_file_shape {u : URL} (hs : u.scheme = str "file")
    (ho : u.opq = []) (hu : u.user = none) (hh : u.host = [])
    (hp : u.path.head? = some '/')
    (hr : u.rawPath = [] ∨ u.rawPath.head? = some '/') :
    ∃ ep, uString u =
        str "file://" ++ (ep ++
          ((if u.forceQuery = true ∨ u.rawQuery ≠ [] then '?' :: u.rawQuery else []) ++
           (match u.fragment with
            | some f => '#' :: escape f .fragment
            | none => []))) ∧
      ep.head? = some '/' ∧ (ep = u.rawPath ∨ ep = escape u.path .path) := by
  obtain ⟨p', hp'⟩ : ∃ p', u.path = '/' :: p' := by
    cases hpp : u.path with
    | nil => rw [hpp] at hp; exact Option.noConfusion hp
    | cons a t =>
      rw [hpp] at hp
      exact ⟨t, by simpa using congrArg (fun o => o.getD 'x') hp⟩
  have hep : (escapedPath u).head? = some '/' ∧
      (escapedPath u = u.rawPath ∨ escapedPath u = escape u.path .path) := by
    unfold escapedPath
    split
    · next hcond =>
      rcases hr with hnil | hhead
      · exact absurd hnil (by simpa using hcond.1)
      · exact ⟨hhead, .inl rfl⟩
    · rw [if_neg (by rw [hp']; simp)]
      refine ⟨?_, .inr rfl⟩
      rw [hp', escape_head_slash]
      rfl
  refine ⟨escapedPath u, ?_, hep.1, hep.2⟩
  unfold uString
  rw [ho, hs, hu, hh]
  rw [if_pos (by decide : (str "file" : Str) ≠ [])]
  rw [if_neg (by simp : ¬(([] : Str) ≠ []))]
  rw [if_pos (show (str "file" : Str) ≠ [] ∨ ([] : Str) ≠ [] ∨ (none : Option Str) ≠ none
        from Or.inl (by decide))]
  rw [if_pos (show ([] : Str) ≠ [] ∨ u.path ≠ [] ∨ (none : Option Str) ≠ none
        from Or.inr (Or.inl (by rw [hp']; simp)))]
  dsimp only []
  rw [if_neg (show ¬(escapedPath u ≠ [] ∧ (escapedPath u).head? ≠ some '/' ∧ ([] : Str) ≠ [])
        from fun hx => hx.2.2 rfl),
    show escape [] Mode.host = [] from rfl]
  simp only [List.append_assoc, List.nil_append, List.append_nil]
  rfl

/-- A committing run of the forced-filepath resolver went through the URI
builder under the `git` token, on one of the three resolution bases. -/
theorem dgff_ok_sr {src pwd force srf r : Str}
    (h : detectGitForceFilepath src pwd force srf = .ok (r, true)) :
    force = str "git" ∧
    ∃ sr, buildGitFileURI (str "git") sr = .ok (r, true) ∧
      (sr = src ∨ (srf ≠ [] ∧ sr = joinPath srf src) ∨
       (pwd ≠ [] ∧ sr = joinPath pwd src)) := by
  unfold detectGitForceFilepath at h
  by_cases hf : force = str "git"
  · subst hf
    rw [if_neg (by simp)] at h
    refine ⟨rfl, ?_⟩
    split at h
    · simp at h
    · split at h
      · exact ⟨src, h, .inl rfl⟩
      · split at h
        · simp at h
        · split at h
          · split at h
            · exact Except.noConfusion h
            · exact ⟨joinPath srf src, h, .inr (.inl ⟨by assumption, rfl⟩)⟩
          · split at h
            · split at h
              · exact Except.noConfusion h
              · exact ⟨joinPath pwd src, h, .inr (.inr ⟨by assumption, rfl⟩)⟩
            · exact Except.noConfusion h
  · rw [if_pos hf] at h
    simp at h

/-- The URI builder's success exposes the parsed URL of the delimited
`file://` string. -/
theorem buildGitFileURI_ok_parse {force sr r : Str}
    (h : buildGitFileURI force sr = .ok (r, true)) :
    ∃ u, urlParse (str "file://" ++
        (if (clean sr).head? = some '/' then clean sr else '/' :: clean sr)) =
          .ok u ∧
      r = force ++ str "::" ++ uString u := by
  unfold buildGitFileURI at h
  dsimp only [toSlash] at h
  split at h
  · exact Except.noConfusion h
  · next u heq =>
    simp only [Except.ok.injEq, Prod.mk.injEq] at h
    exact ⟨u, heq, h.1.symm⟩

/-- The delimited body handed to `url.Parse` always starts with a
slash. -/
theorem delim_head (sr : Str) :
    (if (clean sr).head? = some '/' then clean sr else '/' :: clean sr).head? =
      some '/' := by
  split
  · next hp => exact hp
  · rfl

/-- Every successful `buildGitFileURI` result starts with
`git::file:///` (under the `git` token). -/
theorem buildGitFileURI_starts {sr r : Str}
    (h : buildGitFileURI (str "git") sr = .ok (r, true)) :
    str "git::file:///" <+: r := by
  obtain ⟨u, hparse, hr⟩ := buildGitFileURI_ok_parse h
  have hdh := delim_head sr
  have hdbh := head?_cutBefore hdh (by decide : '/' ≠ '#')
  obtain ⟨w, fq, rq, hqs, hw⟩ := querySplit_file_rest hdbh
  obtain ⟨h1, h2, h3, h4, -, -, -, dec, hdec, hpath, hraw⟩ :=
    urlParse_file_core hqs hw hparse
  obtain ⟨w', rfl⟩ : ∃ w', w = '/' :: w' := by
    cases w with
    | nil => exact Option.noConfusion hw
    | cons a t => exact ⟨t, by simpa using congrArg (fun o => o.getD 'x') hw⟩
  have hpHead : u.path.head? = some '/' := by
    rw [hpath]
    exact unescape_head_slash hdec
  have hrawHead : u.rawPath = [] ∨ u.rawPath.head? = some '/' := by
    rcases hraw with hr0 | hr0
    · exact .inl hr0
    · rw [hr0]
      exact .inr rfl
  obtain ⟨ep, hus, heph, -⟩ := uString_file_shape h1 h2 h3 h4 hpHead hrawHead
  obtain ⟨ep', rfl⟩ : ∃ ep', ep = '/' :: ep' := by
    cases ep with
    | nil => exact Option.noConfusion heph
    | cons a t => exact ⟨t, by simpa using congrArg (fun o => o.getD 'x') heph⟩
  refine ⟨ep' ++
    ((if u.forceQuery = true ∨ u.rawQuery ≠ [] then '?' :: u.rawQuery else []) ++
     (match u.fragment with
      | some f => '#' :: escape f .fragment
      | none => [])), ?_⟩
  rw [hr, hus]
  rfl

theorem not_mem_clean_query {c : Char} {x q y : Str}
    (hcl : clean (x ++ '?' :: q) = y ++ '?' :: q)
    (hcx : c ∉ x) (hcq : c ∉ q) (h1 : c ≠ '/') (h2 : c ≠ '.') (h3 : c ≠ '?') :
    c ∉ y := by
  intro hm
  have hmem : c ∈ clean (x ++ '?' :: q) := by
    rw [hcl]
    exact List.mem_append_left _ hm
  rcases mem_clean hmem with hin | h | h
  · rcases List.mem_append.mp hin with h | h
    · exact hcx h
    · rcases List.mem_cons.mp h with h | h
      · exact h3 h
      · exact hcq h
  · exact h1 h
  · exact h2 h

/-- Every committing run of `buildGitFileURI` whose input carries a
slash-free, hash-free query (the part before also free of `'?'`, `'#'`)
emits that query verbatim as the URI query component: the result's suffix
after its first `'?'` is exactly `q`. -/
theorem buildGitFileURI_query {x1 q r : Str}
    (hxq : '?' ∉ x1) (hxh : '#' ∉ x1) (hqs1 : '/' ∉ q) (hqh : '#' ∉ q)
    (h : buildGitFileURI (str "git") (x1 ++ '?' :: q) = .ok (r, true)) :
    cutAfter '?' r = some q := by
  obtain ⟨u, hparse, hr⟩ := buildGitFileURI_ok_parse h
  obtain ⟨y, hcl, hy⟩ := clean_preserves_query hxq hqs1
  have hyh : '#' ∉ y :=
    not_mem_clean_query hcl hxh hqh (by decide) (by decide) (by decide)
  rw [hcl] at hparse
  obtain ⟨w, hwdef, hwh, hwq, hwhash⟩ :
      ∃ w, (if (y ++ '?' :: q).head? = some '/' then y ++ '?' :: q
            else '/' :: (y ++ '?' :: q)) = w ++ '?' :: q ∧
        w.head? = some '/' ∧ '?' ∉ w ∧ '#' ∉ w := by
    by_cases hh : (y ++ '?' :: q).head? = some '/'
    · refine ⟨y, if_pos hh, ?_, hy, hyh⟩
      cases y with
      | nil => simp at hh
      | cons a t =>
        have : a = '/' := by simpa using hh
        rw [this]
        rfl
    · refine ⟨'/' :: y, by rw [if_neg hh]; rfl, rfl, ?_, ?_⟩
      · simp only [List.mem_cons, not_or]
        exact ⟨by decide, hy⟩
      · simp only [List.mem_cons, not_or]
        exact ⟨by decide, hyh⟩
  rw [hwdef] at hparse
  have hhashd : '#' ∉ w ++ '?' :: q := by
    simp only [List.mem_append, List.mem_cons, not_or]
    exact ⟨hwhash, by decide, hqh⟩
  obtain ⟨fq, rq, hqsl, hqrender⟩ :
      ∃ fq rq, querySplit (str "//" ++ cutBefore '#' (w ++ '?' :: q)) =
        (str "//" ++ w, fq, rq) ∧
        (if fq = true ∨ rq ≠ [] then '?' :: rq else ([] : Str)) = '?' :: q := by
    rw [cutBefore_of_not_mem hhashd, querySplit_of_query q hwq]
    by_cases hqnil : q = []
    · subst hqnil
      exact ⟨true, [], by rw [if_pos rfl], by simp⟩
    · exact ⟨false, q, by rw [if_neg hqnil], by simp [hqnil]⟩
  obtain ⟨h1, h2, h3, h4, h5, h6, h7, dec, hdec, hpath, hraw⟩ :=
    urlParse_file_core hqsl hwh hparse
  have hfrag : u.fragment = none := h7 hhashd
  obtain ⟨w', hww⟩ : ∃ w', w = '/' :: w' := by
    cases w with
    | nil => exact Option.noConfusion hwh
    | cons a t => exact ⟨t, by simpa using congrArg (fun o => o.getD 'x') hwh⟩
  have hpHead : u.path.head? = some '/' := by
    rw [hpath]
    exact unescape_head_slash (hww ▸ hdec)
  have hrawHead : u.rawPath = [] ∨ u.rawPath.head? = some '/' := by
    rcases hraw with h0 | h0
    · exact .inl h0
    · rw [h0, hww]
      exact .inr rfl
  obtain ⟨ep, hus, heph, hepor⟩ := uString_file_shape h1 h2 h3 h4 hpHead hrawHead
  have hepq : '?' ∉ ep := by
    rcases hepor with he | he
    · rcases hraw with h0 | h0
      · rw [he, h0]
        simp
      · rw [he, h0]
        exact hwq
    · rw [he]
      exact not_mem_escape_path _ (by decide) (by decide)
  rw [hr, hus, h5, h6, hqrender, hfrag]
  rw [show ('?' :: q ++ (match (none : Option Str) with
      | some f => '#' :: escape f Mode.fragment
      | none => ([] : Str)) : Str) = '?' :: q ++ [] from rfl,
    List.append_nil]
  rw [show (str "git" ++ str "::" ++ (str "file://" ++ (ep ++ '?' :: q)) : Str) =
      (str "git::file://" ++ ep) ++ '?' :: q by simp only [List.append_assoc]; rfl,
    cutAfter_append_of_not_mem _ (show '?' ∉ str "git::file://" ++ ep by
      simp only [List.mem_append, not_or]
      exact ⟨by decide, hepq⟩)]
  rw [cutAfter, if_pos rfl]

/-- `filepath.Join` against a non-empty base also keeps a slash-free
query suffix intact. -/
theorem joinPath_query {base x0 q : Str} (hb : base ≠ [])
    (hbq : '?' ∉ base) (hx0 : '?' ∉ x0) (hq : '/' ∉ q) :
    ∃ y, joinPath base (x0 ++ '?' :: q) = y ++ '?' :: q ∧ '?' ∉ y ∧
      ('#' ∉ base → '#' ∉ x0 → '#' ∉ q → '#' ∉ y) := by
  unfold joinPath
  rw [if_neg hb,
    show (base ++ '/' :: (x0 ++ '?' :: q) : Str) =
      (base ++ '/' :: x0) ++ '?' :: q by simp]
  have hx : '?' ∉ base ++ '/' :: x0 := by
    simp only [List.mem_append, List.mem_cons, not_or]
    exact ⟨hbq, by decide, hx0⟩
  obtain ⟨y, hcl, hy⟩ := clean_preserves_query hx hq
  refine ⟨y, hcl, hy, ?_⟩
  intro hbh hx0h hqh
  refine not_mem_clean_query hcl ?_ hqh (by decide) (by decide) (by decide)
  simp only [List.mem_append, List.mem_cons, not_or]
  exact ⟨hbh, by decide, hx0h⟩

/-- **C5, counterexample.** A successful forced-Git filepath run whose
address carries the query `?x=1/../2`: path cleaning rewrites the query
into the path, and the produced URI has no query component at all — the
original query does not appear as the URI's query component. -/
theorem detectGitForceFilepath_query_mangled :
    detectGitForceFilepath (str "./a?x=1/../2") (str "/pwd") (str "git") [] =
      .ok (str "git::file:///pwd/2", true) ∧
    cutAfter '?' (str "./a?x=1/../2") = some (str "x=1/../2") ∧
    cutAfter '?' (str "git::file:///pwd/2") = none :=
  ⟨rfl, rfl, rfl⟩

/-- **C5, amended.** On every successful run of the forced-Git filepath
resolver the result is `git::` followed by a `file://` URI whose path
starts with `/` (prefix `git::file:///`); and an attached `?query`
appears verbatim as the URI's query component — rather than escaped into
the path — provided path cleaning cannot touch it: the query free of `/`
and `#`, and the pre-query address part and resolution bases free of
`#` (resp. `?`), since `filepath.Clean` otherwise folds query text into
the path (see the counterexample). -/
theorem detectGitForceFilepath_uri_shape :
    (∀ src pwd force srf r,
      detectGitForceFilepath src pwd force srf = .ok (r, true) →
      str "git::file:///" <+: r) ∧
    (∀ src pwd srf q r,
      detectGitForceFilepath src pwd (str "git") srf = .ok (r, true) →
      cutAfter '?' src = some q →
      '/' ∉ q → '#' ∉ q → '#' ∉ cutBefore '?' src →
      '?' ∉ pwd → '#' ∉ pwd → '?' ∉ srf → '#' ∉ srf →
      cutAfter '?' r = some q) := by
  constructor
  · intro src pwd force srf r h
    obtain ⟨-, sr, hb, -⟩ := dgff_ok_sr h
    exact buildGitFileURI_starts hb
  · intro src pwd srf q r h hq hq1 hq2 hb1 hp1 hp2 hs1 hs2
    obtain ⟨-, sr, hb, hcase⟩ := dgff_ok_sr h
    have hsrc : src = cutBefore '?' src ++ '?' :: q := cutAfter_eq_some_iff.mp hq
    have hx0q : '?' ∉ cutBefore '?' src := not_mem_cutBefore '?' src
    rcases hcase with rfl | ⟨hsrf, rfl⟩ | ⟨hpwd, rfl⟩
    · rw [hsrc] at hb
      exact buildGitFileURI_query hx0q hb1 hq1 hq2 hb
    · rw [hsrc] at hb
      obtain ⟨y1, hjoin, hy1q, hy1h⟩ := joinPath_query hsrf hs1 hx0q hq1
      rw [hjoin] at hb
      exact buildGitFileURI_query hy1q (hy1h hs2 hb1 hq2) hq1 hq2 hb
    · rw [hsrc] at hb
      obtain ⟨y1, hjoin, hy1q, hy1h⟩ := joinPath_query hpwd hp1 hx0q hq1
      rw [hjoin] at hb
      exact buildGitFileURI_query hy1q (hy1h hp2 hb1 hq2) hq1 hq2 hb

/-- Witness for the amended C5: the triple-slash prefix and the verbatim
query at a concrete successful run. -/
theorem detectGitForceFilepath_uri_shape_witness :
    str "git::file:///" <+: str "git::file:///pwd/a?ref=v1.2.3" ∧
    cutAfter '?' (str "git::file:///pwd/a?ref=v1.2.3") = some (str "ref=v1.2.3") :=
  ⟨detectGitForceFilepath_uri_shape.1 (str "./a?ref=v1.2.3") (str "/pwd")
      (str "git") [] (str "git::file:///pwd/a?ref=v1.2.3") (by decide),
   detectGitForceFilepath_uri_shape.2 (str "./a?ref=v1.2.3") (str "/pwd") []
      (str "ref=v1.2.3") (str "git::file:///pwd/a?ref=v1.2.3")
      (by decide) (by decide) (by decide) (by decide) (by decide)
      (by decide) (by decide) (by decide) (by decide)⟩

end GoGetter
